import Mathlib

/-!
Shallow embedding of the emul8 CHIP-8 interpreter core (package chip8:
cpu.go, opcode.go).  Machine words are modelled as Nat with explicit
truncation (% 256 for bytes, % 65536 for 16-bit values) exactly where the
Go code truncates.  The Processor struct mirrors the Go struct; fallible
operations (those that panic in Go: stack overflow/underflow, unknown
opcode, instruction fetch past the last readable address) return Option.
Memory, register file, key latch and display are modelled as total
functions from Nat; the Go code only ever indexes them in range under the
hypotheses carried by the theorems below.
-/

namespace Chip8

/-- Pointwise update of a function, modelling an array store. -/
def upd (f : Nat → Nat) (i x : Nat) : Nat → Nat := fun j => if j = i then x else f j

/-- Byte subtraction: Go uint8 subtraction a - b, wrapping mod 256.
For a, b < 256 this is the two's-complement (a - b) mod 256. -/
def bsub (a b : Nat) : Nat := (a + (256 - b % 256)) % 256

/-- Carry/borrow/collision flag register index (const CarryFlag = 0xF). -/
def CarryFlag : Nat := 15

/-- Mirror of the Go Processor struct (cpu.go).  keyState is the input
latch; stack together with sp is the fixed 16-entry call stack. -/
structure Processor where
  memory : Nat → Nat
  v : Nat → Nat
  keyState : Nat → Bool
  display : Nat → Nat
  stack : Nat → Nat
  sp : Nat
  pc : Nat
  i : Nat
  delay : Nat
  sound : Nat

/-- Processor with every array cell zero, every key up and every scalar
register zero: the Go zero value Processor\x7b\x7d. -/
def zeroProcessor : Processor :=
  { memory := fun _ => 0, v := fun _ => 0, keyState := fun _ => false,
    display := fun _ => 0, stack := fun _ => 0,
    sp := 0, pc := 0, i := 0, delay := 0, sound := 0 }

/-! ### opcode.go: the ALU group 8xy0 .. 8xyE -/

/-- Go setXToY: p.v[x] = p.v[y]. -/
def setXToY (x y : Nat) (p : Processor) : Processor :=
  { p with v := upd p.v x (p.v y) }

/-- Go orXY: reset the carry flag, then p.v[x] |= p.v[y] (both operands
read after the flag reset). -/
def orXY (x y : Nat) (p : Processor) : Processor :=
  let p1 := { p with v := upd p.v CarryFlag 0 }
  { p1 with v := upd p1.v x (p1.v x ||| p1.v y) }

/-- Go andXY: reset the carry flag, then p.v[x] &= p.v[y]. -/
def andXY (x y : Nat) (p : Processor) : Processor :=
  let p1 := { p with v := upd p.v CarryFlag 0 }
  { p1 with v := upd p1.v x (p1.v x &&& p1.v y) }

/-- Go xorXY: reset the carry flag, then p.v[x] ^= p.v[y]. -/
def xorXY (x y : Nat) (p : Processor) : Processor :=
  let p1 := { p with v := upd p.v CarryFlag 0 }
  { p1 with v := upd p1.v x (p1.v x ^^^ p1.v y) }

/-- Go addXY (opcode 8xy4): sum computed from the pre-instruction
registers, flag reset, flag set on 9-bit overflow, then the byte sum is
stored in Vx (this last write happens after the flag writes). -/
def addXY (x y : Nat) (p : Processor) : Processor :=
  let sum := p.v x + p.v y
  let p1 := { p with v := upd p.v CarryFlag 0 }
  let p2 := if sum > 255 then { p1 with v := upd p1.v CarryFlag 1 } else p1
  { p2 with v := upd p2.v x (sum &&& 0xFF) }

/-- Go subtractYFromX (opcode 8xy5): flag reset, then the no-borrow
comparison reads the registers after the reset, then p.v[x] -= p.v[y]
(operands again read after the flag writes). -/
def subtractYFromX (x y : Nat) (p : Processor) : Processor :=
  let p1 := { p with v := upd p.v CarryFlag 0 }
  let p2 := if p1.v x ≥ p1.v y then { p1 with v := upd p1.v CarryFlag 1 } else p1
  { p2 with v := upd p2.v x (bsub (p2.v x) (p2.v y)) }

/-- Go subtractXFromY (opcode 8xy7): flag reset, comparison, then
p.v[x] = p.v[y] - p.v[x]. -/
def subtractXFromY (x y : Nat) (p : Processor) : Processor :=
  let p1 := { p with v := upd p.v CarryFlag 0 }
  let p2 := if p1.v y ≥ p1.v x then { p1 with v := upd p1.v CarryFlag 1 } else p1
  { p2 with v := upd p2.v x (bsub (p2.v y) (p2.v x)) }

/-- Go shiftRightX (opcode 8xy6): carry flag receives bit 0 of Vx, then
p.v[x] >>= 1 (reading Vx after the flag write). -/
def shiftRightX (x : Nat) (p : Processor) : Processor :=
  let p1 := { p with v := upd p.v CarryFlag (p.v x &&& 0x1) }
  { p1 with v := upd p1.v x (p1.v x >>> 1) }

/-- Go shiftLeftX (opcode 8xyE): carry flag receives bit 7 of Vx, then
p.v[x] <<= 1 with byte truncation (reading Vx after the flag write). -/
def shiftLeftX (x : Nat) (p : Processor) : Processor :=
  let p1 := { p with v := upd p.v CarryFlag ((p.v x &&& 0x80) >>> 7) }
  { p1 with v := upd p1.v x ((p1.v x <<< 1) % 256) }

/-! ### opcode.go: control flow, immediates, timers, keys -/

/-- Go clearScreen (00E0): zero every framebuffer cell. -/
def clearScreen (p : Processor) : Processor :=
  { p with display := fun _ => 0 }

/-- Go callSubroutine (2nnn): push the current PC, panicking (none) when
the 16-entry stack is already full. -/
def callSubroutine (nnn : Nat) (p : Processor) : Option Processor :=
  if p.sp ≥ 16 then none
  else some { p with stack := upd p.stack p.sp p.pc, sp := p.sp + 1, pc := nnn }

/-- Go returnFromSubroutine (00EE): pop the return address, panicking
(none) on an empty stack. -/
def returnFromSubroutine (p : Processor) : Option Processor :=
  if p.sp = 0 then none
  else some { p with sp := p.sp - 1, pc := p.stack (p.sp - 1) }

/-- Go jumpToLocation (1nnn). -/
def jumpToLocation (nnn : Nat) (p : Processor) : Processor :=
  { p with pc := nnn }

/-- Go jumpWithOffset (Bnnn): nnn + uint16(v0), 16-bit wrap. -/
def jumpWithOffset (nnn : Nat) (p : Processor) : Processor :=
  { p with pc := (nnn + p.v 0) % 65536 }

/-- Go stepIfXEqualsNN (3xnn). -/
def stepIfXEqualsNN (x nn : Nat) (p : Processor) : Processor :=
  if p.v x = nn then { p with pc := (p.pc + 2) % 65536 } else p

/-- Go stepIfXNotEqualsNN (4xnn). -/
def stepIfXNotEqualsNN (x nn : Nat) (p : Processor) : Processor :=
  if p.v x ≠ nn then { p with pc := (p.pc + 2) % 65536 } else p

/-- Go stepIfXEqualsY (5xy0). -/
def stepIfXEqualsY (x y : Nat) (p : Processor) : Processor :=
  if p.v x = p.v y then { p with pc := (p.pc + 2) % 65536 } else p

/-- Go stepIfXNotEqualsY (9xy0). -/
def stepIfXNotEqualsY (x y : Nat) (p : Processor) : Processor :=
  if p.v x ≠ p.v y then { p with pc := (p.pc + 2) % 65536 } else p

/-- Go setXToNN (6xnn). -/
def setXToNN (x nn : Nat) (p : Processor) : Processor :=
  { p with v := upd p.v x nn }

/-- Go addNNToX (7xnn): byte wraparound, no flag. -/
def addNNToX (x nn : Nat) (p : Processor) : Processor :=
  { p with v := upd p.v x ((p.v x + nn) % 256) }

/-- Go setIToNNN (Annn). -/
def setIToNNN (nnn : Nat) (p : Processor) : Processor :=
  { p with i := nnn }

/-- Go setXToRandom (Cxnn): the random byte is an oracle input rnd,
masked to a byte and ANDed with nn as the code does. -/
def setXToRandom (x nn rnd : Nat) (p : Processor) : Processor :=
  { p with v := upd p.v x ((rnd % 256) &&& nn) }

/-- Go stepIfKeyDown (Ex9E): mask Vx to 4 bits before indexing the latch. -/
def stepIfKeyDown (x : Nat) (p : Processor) : Processor :=
  if p.keyState (p.v x &&& 0xF) then { p with pc := (p.pc + 2) % 65536 } else p

/-- Go stepIfKeyUp (ExA1). -/
def stepIfKeyUp (x : Nat) (p : Processor) : Processor :=
  if p.keyState (p.v x &&& 0xF) then p else { p with pc := (p.pc + 2) % 65536 }

/-- Go setXToDelay (Fx07). -/
def setXToDelay (x : Nat) (p : Processor) : Processor :=
  { p with v := upd p.v x p.delay }

/-- Go pauseUntilKeyPressed (Fx0A): scan keys 0..15 in order; the first
set key is stored in Vx; if none is set, move PC back by 2 (16-bit wrap)
so the same instruction is fetched again next Step. -/
def pauseUntilKeyPressed (x : Nat) (p : Processor) : Processor :=
  match (List.range 16).find? (fun k => p.keyState k) with
  | some k => { p with v := upd p.v x k }
  | none => { p with pc := (p.pc + 65534) % 65536 }

/-- Go setDelayToX (Fx15). -/
def setDelayToX (x : Nat) (p : Processor) : Processor :=
  { p with delay := p.v x }

/-- Go setSoundToX (Fx18). -/
def setSoundToX (x : Nat) (p : Processor) : Processor :=
  { p with sound := p.v x }

/-- Go setIToX (Fx1E): p.i += uint16(p.v[x]), 16-bit wrap. -/
def setIToX (x : Nat) (p : Processor) : Processor :=
  { p with i := (p.i + p.v x) % 65536 }

/-- Go setIToSymbol (Fx29): I = FontStartAddress + 5 * low nibble of Vx. -/
def setIToSymbol (x : Nat) (p : Processor) : Processor :=
  { p with i := 0x50 + (p.v x &&& 0xF) * 5 }

/-! ### opcode.go: binaryCodedDecimal (Fx33, double dabble) -/

/-- Iteration body of the Go double-dabble loop for loop index k: add 3
to each 4-bit lane that is at least 5, then shift left pulling in bit
7 - k of the input value. -/
def bcdStep (val bcd k : Nat) : Nat :=
  let b1 := if bcd &&& 0x00F ≥ 5 then bcd + 3 else bcd
  let b2 := if b1 &&& 0x0F0 ≥ 0x050 then b1 + 0x030 else b1
  let b3 := if b2 &&& 0xF00 ≥ 0x500 then b2 + 0x300 else b2
  (b3 <<< 1) ||| ((val >>> (7 - k)) &&& 1)

/-- Go double-dabble loop: 8 iterations starting from bcd = 0. -/
def bcdLoop (val : Nat) : Nat :=
  (List.range 8).foldl (fun bcd k => bcdStep val bcd k) 0

/-- Go binaryCodedDecimal (Fx33): run the double-dabble loop on Vx and
store the three digit lanes at I, I+1, I+2 (16-bit address wrap as in the
Go uint16 additions). -/
def binaryCodedDecimal (x : Nat) (p : Processor) : Processor :=
  let bcd := bcdLoop (p.v x)
  let m1 := upd p.memory (p.i % 65536) ((bcd >>> 8) &&& 0xF)
  let m2 := upd m1 ((p.i + 1) % 65536) ((bcd >>> 4) &&& 0xF)
  let m3 := upd m2 ((p.i + 2) % 65536) (bcd &&& 0xF)
  { p with memory := m3 }

/-! ### opcode.go: register block store/load (Fx55, Fx65) -/

/-- Loop of Go setRegistersToMemory: for k in 0..x write V(k) to
memory[I+k]; fuel is the number of iterations left. -/
def storeLoop : Nat → Nat → Processor → Processor
  | 0, _, p => p
  | fuel + 1, k, p =>
      storeLoop fuel (k + 1) { p with memory := upd p.memory ((p.i + k) % 65536) (p.v k) }

/-- Go setRegistersToMemory (Fx55): the range 0..x is inclusive. -/
def setRegistersToMemory (x : Nat) (p : Processor) : Processor :=
  storeLoop (x + 1) 0 p

/-- Loop of Go setMemoryToRegisters: for k in 0..x load V(k) from
memory[I+k]. -/
def loadLoop : Nat → Nat → Processor → Processor
  | 0, _, p => p
  | fuel + 1, k, p =>
      loadLoop fuel (k + 1) { p with v := upd p.v k (p.memory ((p.i + k) % 65536)) }

/-- Go setMemoryToRegisters (Fx65): the range 0..x is inclusive. -/
def setMemoryToRegisters (x : Nat) (p : Processor) : Processor :=
  loadLoop (x + 1) 0 p

/-! ### cpu.go: DrawSprite (Dxyn) -/

/-- Inner body of the draw loops: collision check against the current
framebuffer cell, then XOR the cell with 1 (cpu.go lines 450-457). -/
def drawPixel (idx : Nat) (p : Processor) : Processor :=
  let p1 := if p.display idx = 1 then { p with v := upd p.v CarryFlag 1 } else p
  { p1 with display := upd p1.display idx (p1.display idx ^^^ 1) }

/-- Column loop of Go DrawSprite: for col in 0..7, break when the column
runs off the right edge, and XOR the pixel whenever sprite bit 7-col is
set.  The fuel argument counts the remaining iterations (8 at entry). -/
def drawCols (startX startY row sprite : Nat) : Nat → Nat → Processor → Processor
  | 0, _, p => p
  | fuel + 1, col, p =>
      if 64 ≤ startX + col then p
      else
        let p1 := if sprite &&& (0x80 >>> col) ≠ 0 then
          drawPixel (startX + col + (startY + row) * 64) p else p
        drawCols startX startY row sprite fuel (col + 1) p1

/-- Row loop of Go DrawSprite: for row in 0..h-1, break at the bottom
edge, reading the sprite byte for each row from memory[I+row]. -/
def drawRows (startX startY : Nat) : Nat → Nat → Processor → Processor
  | 0, _, p => p
  | fuel + 1, row, p =>
      if 32 ≤ startY + row then p
      else
        drawRows startX startY fuel (row + 1)
          (drawCols startX startY row (p.memory ((p.i + row) % 65536)) 8 0 p)

/-- Go Processor.DrawSprite (cpu.go lines 431-461): mask the start
coordinates from Vx, Vy at sprite-origin time, reset the collision flag,
then run the row loop. -/
def DrawSprite (x y n : Nat) (p : Processor) : Processor :=
  let startX := p.v x &&& 63
  let startY := p.v y &&& 31
  let p0 := { p with v := upd p.v CarryFlag 0 }
  drawRows startX startY n 0 p0

/-! ### cpu.go: memory Write / Read (truncating block transfer) -/

/-- Loop of Go Processor.Write: copy data[k] to memory[loc+k] while the
16-bit address loc+k is strictly below 0xFFF; returns the processor and
the count of bytes written. -/
def writeLoop (loc : Nat) : Nat → Processor → List Nat → Processor × Nat
  | k, p, [] => (p, k)
  | k, p, d :: rest =>
      if (loc + k) % 65536 < 0xFFF then
        writeLoop loc (k + 1) { p with memory := upd p.memory ((loc + k) % 65536) d } rest
      else (p, k)

/-- Go Processor.Write (cpu.go lines 399-405). -/
def Write (loc : Nat) (data : List Nat) (p : Processor) : Processor × Nat :=
  writeLoop loc 0 p data

/-- Loop of Go Processor.Read: collect memory[loc+k] while the address
loc+k is strictly below 0xFFF and fewer than len bytes have been read. -/
def readLoop (loc : Nat) : Nat → Nat → Processor → List Nat
  | _, 0, _ => []
  | k, fuel + 1, p =>
      if (loc + k) % 65536 < 0xFFF then
        p.memory ((loc + k) % 65536) :: readLoop loc (k + 1) fuel p
      else []

/-- Go Processor.Read (cpu.go lines 407-413): the bytes copied into the
caller's len-byte buffer, and the count returned by Read. -/
def Read (loc len : Nat) (p : Processor) : List Nat × Nat :=
  let l := readLoop loc 0 len p
  (l, l.length)

/-! ### cpu.go: fetch, Execute dispatch, Step, Reset, Load -/

/-- Go Processor.OpcodeAt: read two bytes at offset (panicking - none -
when fewer than two bytes are readable, the program-runaway check) and
combine them high byte first. -/
def OpcodeAt (offset : Nat) (p : Processor) : Option Nat :=
  if offset % 65536 < 0xFFF ∧ (offset + 1) % 65536 < 0xFFF then
    some ((p.memory (offset % 65536) <<< 8) ||| p.memory ((offset + 1) % 65536))
  else none

/-- Redraw bit of the status mask (Redraw = 4 in cpu.go). -/
def Redraw : Nat := 4

/-- Go Processor.Execute (cpu.go lines 295-388): decode the nibble
fields and dispatch; unknown opcodes and stack faults panic (none).
The Go switch statements on kind, n and nn are rendered as equality
chains over the same scrutinees with the same cases and the same
default.  info is the status bitmask out-parameter; rnd is the oracle
byte for the Cxnn random instruction. -/
def Execute (op : Nat) (p : Processor) (info rnd : Nat) : Option (Processor × Nat) :=
  let kind := (op &&& 0xF000) >>> 12
  let x := (op &&& 0x0F00) >>> 8
  let y := (op &&& 0x00F0) >>> 4
  let n := op &&& 0x000F
  let nn := op &&& 0x00FF
  let nnn := op &&& 0x0FFF
  if kind = 0x0 then
    if op = 0x00E0 then some (clearScreen p, info ||| Redraw)
    else if op = 0x00EE then (returnFromSubroutine p).map (fun q => (q, info))
    else none
  else if kind = 0x1 then some (jumpToLocation nnn p, info)
  else if kind = 0x2 then (callSubroutine nnn p).map (fun q => (q, info))
  else if kind = 0x3 then some (stepIfXEqualsNN x nn p, info)
  else if kind = 0x4 then some (stepIfXNotEqualsNN x nn p, info)
  else if kind = 0x5 then some (stepIfXEqualsY x y p, info)
  else if kind = 0x6 then some (setXToNN x nn p, info)
  else if kind = 0x7 then some (addNNToX x nn p, info)
  else if kind = 0x8 then
    if n = 0x0 then some (setXToY x y p, info)
    else if n = 0x1 then some (orXY x y p, info)
    else if n = 0x2 then some (andXY x y p, info)
    else if n = 0x3 then some (xorXY x y p, info)
    else if n = 0x4 then some (addXY x y p, info)
    else if n = 0x5 then some (subtractYFromX x y p, info)
    else if n = 0x6 then some (shiftRightX x p, info)
    else if n = 0x7 then some (subtractXFromY x y p, info)
    else if n = 0xE then some (shiftLeftX x p, info)
    else none
  else if kind = 0x9 then some (stepIfXNotEqualsY x y p, info)
  else if kind = 0xA then some (setIToNNN nnn p, info)
  else if kind = 0xB then some (jumpWithOffset nnn p, info)
  else if kind = 0xC then some (setXToRandom x nn rnd p, info)
  else if kind = 0xD then some (DrawSprite x y n p, info ||| Redraw)
  else if kind = 0xE then
    if nn = 0x9E then some (stepIfKeyDown x p, info)
    else if nn = 0xA1 then some (stepIfKeyUp x p, info)
    else none
  else if kind = 0xF then
    if nn = 0x07 then some (setXToDelay x p, info)
    else if nn = 0x0A then some (pauseUntilKeyPressed x p, info)
    else if nn = 0x15 then some (setDelayToX x p, info)
    else if nn = 0x18 then some (setSoundToX x p, info)
    else if nn = 0x1E then some (setIToX x p, info)
    else if nn = 0x29 then some (setIToSymbol x p, info)
    else if nn = 0x33 then some (binaryCodedDecimal x p, info)
    else if nn = 0x55 then some (setRegistersToMemory x p, info)
    else if nn = 0x65 then some (setMemoryToRegisters x p, info)
    else none
  else none

/-- Go Processor.Step (cpu.go lines 493-521): fetch at PC, advance PC by
2, dispatch, then decay the timers when the wall-clock tick flag is set
(modelled as the Boolean input tick), and report the status mask with
the Sound (2) and Delay (1) bits. -/
def Step (tick : Bool) (rnd : Nat) (p : Processor) : Option (Processor × Nat) :=
  match OpcodeAt p.pc p with
  | none => none
  | some op =>
      let p1 := { p with pc := (p.pc + 2) % 65536 }
      match Execute op p1 0 rnd with
      | none => none
      | some (p2, info) =>
          let p3 := if tick then { p2 with sound := p2.sound - 1, delay := p2.delay - 1 } else p2
          let info2 := if p3.sound > 0 then info ||| 2 else info
          let info3 := if p3.delay > 0 then info2 ||| 1 else info2
          some (p3, info3)

/-- Font sprite table written at 0x50 by Reset (cpu.go fontSet). -/
def fontSet : List Nat :=
  [0xF0, 0x90, 0x90, 0x90, 0xF0,
   0x20, 0x60, 0x20, 0x20, 0x70,
   0xF0, 0x10, 0xF0, 0x80, 0xF0,
   0xF0, 0x10, 0xF0, 0x10, 0xF0,
   0x90, 0x90, 0xF0, 0x10, 0x10,
   0xF0, 0x80, 0xF0, 0x10, 0xF0,
   0xF0, 0x80, 0xF0, 0x90, 0xF0,
   0xF0, 0x10, 0x20, 0x40, 0x40,
   0xF0, 0x90, 0xF0, 0x90, 0xF0,
   0xF0, 0x90, 0xF0, 0x10, 0xF0,
   0xF0, 0x90, 0xF0, 0x90, 0x90,
   0xE0, 0x90, 0xE0, 0x90, 0xE0,
   0xF0, 0x80, 0x80, 0x80, 0xF0,
   0xE0, 0x90, 0x90, 0x90, 0xE0,
   0xF0, 0x80, 0xF0, 0x80, 0xF0,
   0xF0, 0x80, 0xF0, 0x80, 0x80]

/-- Go Processor.Reset: zero the whole processor, then write the font
set at 0x50, fatal (none) if it does not fit. -/
def Reset : Option Processor :=
  let r := Write 0x50 fontSet zeroProcessor
  if r.2 < fontSet.length then none else some r.1

/-- Go Processor.Load: write the program image at 0x200, fatal (none) on
a short write, then point PC at 0x200. -/
def Load (b : List Nat) (p : Processor) : Option Processor :=
  let r := Write 0x200 b p
  if r.2 < b.length then none else some { r.1 with pc := 0x200 }

/-- States reachable from Reset through Load and Step (with arbitrary
timer ticks and random oracle bytes). -/
inductive Reach : Processor → Prop where
  | reset : ∀ p, Reset = some p → Reach p
  | load : ∀ p b p2, Reach p → Load b p = some p2 → Reach p2
  | step : ∀ p tick rnd p2 info, Reach p → Step tick rnd p = some (p2, info) → Reach p2

/-! ### Loop-mirroring predicates and concrete states used by the theorems -/

/-- Processor with V0 = VF = 200, all else zero. -/
def pC1 : Processor :=
  { zeroProcessor with v := fun j => if j = 15 then 200 else if j = 0 then 200 else 0 }

/-- Processor with V0 = 0, VF = 5, all else zero. -/
def pC2 : Processor :=
  { zeroProcessor with v := fun j => if j = 15 then 5 else 0 }

/-- Processor with V0 = 200, V1 = 100, all else zero. -/
def pW1 : Processor :=
  { zeroProcessor with v := fun j => if j = 0 then 200 else if j = 1 then 100 else 0 }

/-- Processor with VF = 3, all else zero. -/
def pC3 : Processor := { zeroProcessor with v := fun j => if j = 15 then 3 else 0 }

/-- Processor with V1 = 77, VF = 130, all else zero. -/
def pW3 : Processor :=
  { zeroProcessor with v := fun j => if j = 1 then 77 else if j = 15 then 130 else 0 }

/-- Processor with V0 = 156 and I = 0x300, all else zero. -/
def pW5 : Processor :=
  { zeroProcessor with v := fun j => if j = 0 then 156 else 0, i := 0x300 }

/-- Mirror of the drawCols loop as a predicate: does the column loop
starting at col with the given fuel XOR framebuffer cell idx? -/
def colHit (startX startY row sprite : Nat) : Nat → Nat → Nat → Bool
  | 0, _, _ => false
  | fuel + 1, col, idx =>
      if 64 ≤ startX + col then false
      else
        (decide (sprite &&& (0x80 >>> col) ≠ 0) &&
         decide (idx = startX + col + (startY + row) * 64))
        || colHit startX startY row sprite fuel (col + 1) idx

/-- Mirror of the drawCols loop as a predicate: does the column loop see
a collision (an XORed cell whose value in d is 1)? -/
def colCollide (startX startY row sprite : Nat) (d : Nat → Nat) : Nat → Nat → Bool
  | 0, _ => false
  | fuel + 1, col =>
      if 64 ≤ startX + col then false
      else
        (decide (sprite &&& (0x80 >>> col) ≠ 0) &&
         decide (d (startX + col + (startY + row) * 64) = 1))
        || colCollide startX startY row sprite d fuel (col + 1)

/-- Does the row loop starting at row with the given fuel XOR cell idx? -/
def rowHit (startX startY : Nat) (mem : Nat → Nat) (iReg : Nat) : Nat → Nat → Nat → Bool
  | 0, _, _ => false
  | fuel + 1, row, idx =>
      if 32 ≤ startY + row then false
      else
        colHit startX startY row (mem ((iReg + row) % 65536)) 8 0 idx
        || rowHit startX startY mem iReg fuel (row + 1) idx

/-- Does the row loop see a collision against framebuffer contents d? -/
def rowCollide (startX startY : Nat) (mem : Nat → Nat) (iReg : Nat) (d : Nat → Nat) :
    Nat → Nat → Bool
  | 0, _ => false
  | fuel + 1, row =>
      if 32 ≤ startY + row then false
      else
        colCollide startX startY row (mem ((iReg + row) % 65536)) d 8 0
        || rowCollide startX startY mem iReg d fuel (row + 1)

/-- Cells XORed by DrawSprite x y n from state p. -/
def spriteHit (p : Processor) (x y n idx : Nat) : Bool :=
  rowHit (p.v x &&& 63) (p.v y &&& 31) p.memory p.i n 0 idx

/-- Collision outcome of DrawSprite x y n from state p. -/
def spriteCollide (p : Processor) (x y n : Nat) : Bool :=
  rowCollide (p.v x &&& 63) (p.v y &&& 31) p.memory p.i p.display n 0

/-- Processor with an 8-pixel sprite row 0x80 at address 0 (I = 0). -/
def pW4 : Processor := { zeroProcessor with memory := fun a => if a = 0 then 0x80 else 0 }

/-- Processor whose program at PC = 0x200 is the single instruction
F00A (wait for key into V0), with no key set. -/
def pW6 : Processor :=
  { zeroProcessor with
    memory := fun a => if a = 0x200 then 0xF0 else if a = 0x201 then 0x0A else 0,
    pc := 0x200 }

/-- The processor state produced by Reset: the font set written over the
zero state. -/
def resetState : Processor := (Write 0x50 fontSet zeroProcessor).1

/-- Processor with the call stack already at full depth 16. -/
def pSp16 : Processor := { zeroProcessor with sp := 16 }


/-! ### Small arithmetic helpers -/

@[simp] theorem upd_self (f : Nat → Nat) (i x : Nat) : upd f i x i = x := by
  simp [upd]

theorem upd_ne (f : Nat → Nat) (i x j : Nat) (h : j ≠ i) : upd f i x j = f j := by
  simp [upd, h]

theorem and255_eq_mod (m : Nat) : m &&& 255 = m % 256 := by
  have h := Nat.and_pow_two_sub_one_eq_mod m 8
  norm_num at h
  exact h

theorem and63_eq_mod (m : Nat) : m &&& 63 = m % 64 := by
  have h := Nat.and_pow_two_sub_one_eq_mod m 6
  norm_num at h
  exact h

theorem and31_eq_mod (m : Nat) : m &&& 31 = m % 32 := by
  have h := Nat.and_pow_two_sub_one_eq_mod m 5
  norm_num at h
  exact h

theorem bsub_eq (a b : Nat) (hb : b < 256) : bsub a b = (a + 256 - b) % 256 := by
  unfold bsub
  rw [Nat.mod_eq_of_lt hb]
  congr 1
  omega

/-! ### Concrete processors used by counterexamples and witnesses -/

/-! ### C1: ALU ADD (8xy4) -/

/-- C1 counterexample.  The claim quantifies the destination register
over all of 0x0..0xF; at x = 0xF the final primary write lands in VF
itself, so with Vx = Vy = 200 (sum 400 > 255) the carry register ends
holding 400 mod 256 = 144, not the claimed carry value 1. -/
theorem addXY_claim_cex :
    pC1.v 15 = 200 ∧ pC1.v 0 = 200 ∧ 200 + 200 > 255 ∧
    (addXY 15 0 pC1).v CarryFlag = 144 ∧ (144 : Nat) ≠ 1 :=
  ⟨rfl, rfl, by decide, by decide, by decide⟩

/-- C1 (amended): for every destination register x other than the carry
register 0xF, ADD(Vx = a, Vy = b) leaves Vx = (a + b) mod 256 and leaves
the carry register VF equal to 1 exactly when a + b > 255. -/
theorem addXY_spec (p : Processor) (x y a b : Nat)
    (hx : x < 16) (hy : y < 16) (hxF : x ≠ 15)
    (ha : p.v x = a) (hb : p.v y = b) (ha2 : a < 256) (hb2 : b < 256) :
    (addXY x y p).v x = (a + b) % 256 ∧
    (addXY x y p).v CarryFlag = if a + b > 255 then 1 else 0 := by
  subst ha hb
  unfold addXY CarryFlag
  dsimp only
  constructor
  · simp [upd]
    exact and255_eq_mod _
  · rw [upd_ne _ _ _ _ (Ne.symm hxF)]
    split <;> simp [upd]

/-- Witness for addXY_spec at V0 = 200, V1 = 100. -/
theorem addXY_spec_witness :
    (addXY 0 1 pW1).v 0 = (200 + 100) % 256 ∧
    (addXY 0 1 pW1).v CarryFlag = if 200 + 100 > 255 then 1 else 0 :=
  addXY_spec pW1 0 1 200 100 (by decide) (by decide) (by decide)
    (by decide) (by decide) (by decide) (by decide)

/-! ### C2: ALU SUB (8xy5) -/

/-- C2 counterexample.  At x = 0, y = 0xF with V0 = 0 and VF = 5 the
claim predicts V0 = (0 - 5) mod 256 = 251 and VF = 0 (borrow), but the
code resets VF to 0 before the comparison, so the comparison reads 0,
sets the flag to 1, and the subtraction then subtracts the flag value 1
instead of 5, leaving V0 = 255 and VF = 1. -/
theorem subtractYFromX_claim_cex :
    pC2.v 0 = 0 ∧ pC2.v 15 = 5 ∧
    (subtractYFromX 0 15 pC2).v 0 = 255 ∧
    (subtractYFromX 0 15 pC2).v CarryFlag = 1 ∧
    ((0 + 256 - 5) % 256 : Nat) = 251 ∧ ¬ (0 ≥ 5) :=
  ⟨rfl, rfl, by decide, by decide, by decide, by decide⟩

/-- C2 (amended): for register indices x and y both different from the
carry register 0xF, SUB(Vx = a, Vy = b) leaves Vx = (a - b) mod 256
(written (a + 256 - b) % 256 on Nat) and VF = 1 exactly when a ≥ b,
the comparison using the values held before the subtraction. -/
theorem subtractYFromX_spec (p : Processor) (x y a b : Nat)
    (hx : x < 16) (hy : y < 16) (hxF : x ≠ 15) (hyF : y ≠ 15)
    (ha : p.v x = a) (hb : p.v y = b) (ha2 : a < 256) (hb2 : b < 256) :
    (subtractYFromX x y p).v x = (a + 256 - b) % 256 ∧
    (subtractYFromX x y p).v CarryFlag = if b ≤ a then 1 else 0 := by
  subst ha hb
  unfold subtractYFromX CarryFlag
  dsimp only
  constructor
  · simp only [upd_self]
    split <;> simp [upd, hxF, hyF] <;> rw [bsub_eq _ _ hb2]
  · rw [upd_ne _ _ _ _ (Ne.symm hxF)]
    split <;> rename_i h <;> simp [upd, hxF, hyF] at h ⊢
    · simp [h]
    · rw [if_neg (Nat.not_le.mpr h)]

/-- Witness for subtractYFromX_spec at V0 = 200, V1 = 100. -/
theorem subtractYFromX_spec_witness :
    (subtractYFromX 0 1 pW1).v 0 = (200 + 256 - 100) % 256 ∧
    (subtractYFromX 0 1 pW1).v CarryFlag = if 100 ≤ 200 then 1 else 0 :=
  subtractYFromX_spec pW1 0 1 200 100 (by decide) (by decide) (by decide)
    (by decide) (by decide) (by decide) (by decide) (by decide)

/-! ### C3: flag writes of the ALU group when x = 0xF -/

/-- C3 counterexample.  The claim says that for SHR with destination
x = 0xF the flag write is authoritative, so VF should end holding the
shifted-out bit.  With VF = 3 the shifted-out bit is 3 &&& 1 = 1, but the
code performs the primary write last: VF first receives the flag 1 and is
then overwritten by 1 >> 1 = 0. -/
theorem aluFlag_claim_cex :
    pC3.v 15 = 3 ∧ (3 : Nat) &&& 0x1 = 1 ∧
    (shiftRightX 15 pC3).v CarryFlag = 0 ∧ (0 : Nat) ≠ 1 :=
  ⟨rfl, by decide, by decide, by decide⟩

/-- C3 (amended): in every ALU operation the write to VF happens before
the primary register write, so when the destination index x equals 0xF
the primary write is authoritative, not the flag write: VF ends holding
the value of the primary write, computed from the post-flag-write
register file.  Concretely, for y ≠ 0xF and byte-valued registers:
OR and XOR leave VF = Vy (the flag 0 ORed/XORed with Vy), AND leaves
VF = 0, ADD leaves VF = (VF + Vy) mod 256 (its carry computation reads
the prior VF as the Vx operand), SUB leaves VF = 1 when Vy = 0 and
256 - Vy otherwise, SUBN leaves VF = (Vy + 255) mod 256, SHR leaves
VF = 0, and SHL leaves VF = twice the old bit 7 of VF. -/
theorem aluFlagAlias_spec (p : Processor) (y : Nat)
    (hy : y < 16) (hyF : y ≠ 15) (hb : p.v y < 256) (hf : p.v 15 < 256) :
    (orXY 15 y p).v CarryFlag = p.v y ∧
    (andXY 15 y p).v CarryFlag = 0 ∧
    (xorXY 15 y p).v CarryFlag = p.v y ∧
    (addXY 15 y p).v CarryFlag = (p.v 15 + p.v y) % 256 ∧
    (subtractYFromX 15 y p).v CarryFlag = (if p.v y = 0 then 1 else 256 - p.v y) ∧
    (subtractXFromY 15 y p).v CarryFlag = (p.v y + 255) % 256 ∧
    (shiftRightX 15 p).v CarryFlag = 0 ∧
    (shiftLeftX 15 p).v CarryFlag = 2 * ((p.v 15 &&& 0x80) >>> 7) := by
  refine ⟨?_, ?_, ?_, ?_, ?_, ?_, ?_, ?_⟩
  · unfold orXY CarryFlag
    simp [upd, hyF]
  · unfold andXY CarryFlag
    simp [upd]
  · unfold xorXY CarryFlag
    simp [upd, hyF]
  · unfold addXY CarryFlag
    dsimp only
    split <;> simp [upd] <;> exact and255_eq_mod _
  · unfold subtractYFromX CarryFlag
    dsimp only
    simp only [upd_self]
    split <;> rename_i h <;> simp [upd, hyF] at h ⊢
    · rw [if_pos h, h]
      decide
    · rw [if_neg (by omega), bsub_eq 0 _ hb]
      omega
  · unfold subtractXFromY CarryFlag
    dsimp only
    rw [if_pos (by simp [upd])]
    simp only [upd_self]
    simp [upd, hyF]
    rw [bsub_eq _ 1 (by omega)]
    omega
  · unfold shiftRightX CarryFlag
    dsimp only
    simp only [upd_self]
    have h1 : p.v 15 &&& 0x1 ≤ 1 := Nat.and_le_right
    have h2 := Nat.shiftRight_eq_div_pow (p.v 15 &&& 0x1) 1
    simp only [pow_one] at h2
    omega
  · unfold shiftLeftX CarryFlag
    dsimp only
    simp only [upd_self]
    have h1 : (p.v 15 &&& 0x80) >>> 7 ≤ 1 := by
      have ha : p.v 15 &&& 0x80 ≤ 0x80 := Nat.and_le_right
      have hd := Nat.shiftRight_eq_div_pow (p.v 15 &&& 0x80) 7
      rw [hd]
      omega
    rw [Nat.shiftLeft_eq, Nat.mod_eq_of_lt (by omega)]
    omega

/-- Witness for aluFlagAlias_spec at y = 1, V1 = 77, VF = 130. -/
theorem aluFlagAlias_spec_witness :
    (orXY 15 1 pW3).v CarryFlag = pW3.v 1 ∧
    (andXY 15 1 pW3).v CarryFlag = 0 ∧
    (xorXY 15 1 pW3).v CarryFlag = pW3.v 1 ∧
    (addXY 15 1 pW3).v CarryFlag = (pW3.v 15 + pW3.v 1) % 256 ∧
    (subtractYFromX 15 1 pW3).v CarryFlag = (if pW3.v 1 = 0 then 1 else 256 - pW3.v 1) ∧
    (subtractXFromY 15 1 pW3).v CarryFlag = (pW3.v 1 + 255) % 256 ∧
    (shiftRightX 15 pW3).v CarryFlag = 0 ∧
    (shiftLeftX 15 pW3).v CarryFlag = 2 * ((pW3.v 15 &&& 0x80) >>> 7) :=
  aluFlagAlias_spec pW3 1 (by decide) (by decide) (by decide) (by decide)

/-! ### C5: binary-coded decimal (Fx33) -/

set_option maxRecDepth 100000 in
/-- Exhaustive check over all byte inputs: after the 8 double-dabble
iterations the three 4-bit lanes hold the decimal digits. -/
theorem bcd_digits : ∀ w, w < 256 →
    (bcdLoop w >>> 8) &&& 0xF = w / 100 ∧
    (bcdLoop w >>> 4) &&& 0xF = w / 10 % 10 ∧
    bcdLoop w &&& 0xF = w % 10 := by
  decide

/-- C5: for every byte value w in Vx and index register I with I, I+1,
I+2 in memory range, the BCD instruction stores w div 100 at I,
(w div 10) mod 10 at I+1 and w mod 10 at I+2. -/
theorem binaryCodedDecimal_spec (p : Processor) (x w : Nat)
    (hv : p.v x = w) (hw : w < 256) (hi : p.i + 2 ≤ 0xFFF) :
    (binaryCodedDecimal x p).memory p.i = w / 100 ∧
    (binaryCodedDecimal x p).memory (p.i + 1) = w / 10 % 10 ∧
    (binaryCodedDecimal x p).memory (p.i + 2) = w % 10 := by
  subst hv
  have e0 : p.i % 65536 = p.i := Nat.mod_eq_of_lt (by omega)
  have e1 : (p.i + 1) % 65536 = p.i + 1 := Nat.mod_eq_of_lt (by omega)
  have e2 : (p.i + 2) % 65536 = p.i + 2 := Nat.mod_eq_of_lt (by omega)
  obtain ⟨d1, d2, d3⟩ := bcd_digits (p.v x) hw
  unfold binaryCodedDecimal
  dsimp only
  rw [e0, e1, e2]
  refine ⟨?_, ?_, ?_⟩
  · rw [upd_ne _ _ _ _ (by omega), upd_ne _ _ _ _ (by omega), upd_self]
    exact d1
  · rw [upd_ne _ _ _ _ (by omega), upd_self]
    exact d2
  · rw [upd_self]
    exact d3

/-- Witness for binaryCodedDecimal_spec: BCD(156) stores 1, 5, 6. -/
theorem binaryCodedDecimal_spec_witness :
    (binaryCodedDecimal 0 pW5).memory pW5.i = 156 / 100 ∧
    (binaryCodedDecimal 0 pW5).memory (pW5.i + 1) = 156 / 10 % 10 ∧
    (binaryCodedDecimal 0 pW5).memory (pW5.i + 2) = 156 % 10 :=
  binaryCodedDecimal_spec pW5 0 156 (by decide) (by decide) (by decide)

/-! ### C9: register block store/load (Fx55, Fx65) -/

theorem storeLoop_frame : ∀ fuel k p,
    (storeLoop fuel k p).i = p.i ∧ (storeLoop fuel k p).v = p.v ∧
    (storeLoop fuel k p).sp = p.sp ∧ (storeLoop fuel k p).pc = p.pc ∧
    (storeLoop fuel k p).display = p.display ∧ (storeLoop fuel k p).stack = p.stack ∧
    (storeLoop fuel k p).keyState = p.keyState ∧ (storeLoop fuel k p).delay = p.delay ∧
    (storeLoop fuel k p).sound = p.sound := by
  intro fuel
  induction fuel with
  | zero => intro k p; exact ⟨rfl, rfl, rfl, rfl, rfl, rfl, rfl, rfl, rfl⟩
  | succ n ih => intro k p; exact ih (k + 1) _

theorem storeLoop_mem : ∀ fuel k p a,
    (∀ k2, k ≤ k2 → k2 < k + fuel → a ≠ (p.i + k2) % 65536) →
    (storeLoop fuel k p).memory a = p.memory a := by
  intro fuel
  induction fuel with
  | zero => intro k p a _; rfl
  | succ n ih =>
    intro k p a h
    show (storeLoop n (k + 1) _).memory a = p.memory a
    rw [ih (k + 1) { p with memory := upd p.memory ((p.i + k) % 65536) (p.v k) } a
        (fun k2 h1 h2 => h k2 (by omega) (by omega))]
    exact upd_ne _ _ _ _ (h k (Nat.le_refl k) (by omega))

theorem loadLoop_frame : ∀ fuel k p,
    (loadLoop fuel k p).i = p.i ∧ (loadLoop fuel k p).memory = p.memory ∧
    (loadLoop fuel k p).sp = p.sp ∧ (loadLoop fuel k p).pc = p.pc ∧
    (loadLoop fuel k p).display = p.display ∧ (loadLoop fuel k p).stack = p.stack ∧
    (loadLoop fuel k p).keyState = p.keyState ∧ (loadLoop fuel k p).delay = p.delay ∧
    (loadLoop fuel k p).sound = p.sound := by
  intro fuel
  induction fuel with
  | zero => intro k p; exact ⟨rfl, rfl, rfl, rfl, rfl, rfl, rfl, rfl, rfl⟩
  | succ n ih => intro k p; exact ih (k + 1) _

theorem loadLoop_v : ∀ fuel k p j,
    (∀ k2, k ≤ k2 → k2 < k + fuel → j ≠ k2) →
    (loadLoop fuel k p).v j = p.v j := by
  intro fuel
  induction fuel with
  | zero => intro k p j _; rfl
  | succ n ih =>
    intro k p j h
    show (loadLoop n (k + 1) _).v j = p.v j
    rw [ih (k + 1) { p with v := upd p.v k (p.memory ((p.i + k) % 65536)) } j
        (fun k2 h1 h2 => h k2 (by omega) (by omega))]
    exact upd_ne _ _ _ _ (h k (Nat.le_refl k) (by omega))

/-- C9: the block store Fx55 and block load Fx65 both leave the index
register I unchanged (no post-increment variant); the store writes only
the memory cells I..I+x (registers untouched), and the load writes only
the registers V0..Vx (memory untouched). -/
theorem registerBlock_spec (p : Processor) (x : Nat)
    (hx : x < 16) (hI : p.i + x < 65536) :
    (setRegistersToMemory x p).i = p.i ∧
    (∀ j, (setRegistersToMemory x p).v j = p.v j) ∧
    (∀ a, a < p.i ∨ p.i + x < a → (setRegistersToMemory x p).memory a = p.memory a) ∧
    (setMemoryToRegisters x p).i = p.i ∧
    (∀ a, (setMemoryToRegisters x p).memory a = p.memory a) ∧
    (∀ j, x < j → (setMemoryToRegisters x p).v j = p.v j) := by
  refine ⟨(storeLoop_frame (x + 1) 0 p).1,
          fun j => congrFun (storeLoop_frame (x + 1) 0 p).2.1 j, ?_,
          (loadLoop_frame (x + 1) 0 p).1,
          fun a => congrFun (loadLoop_frame (x + 1) 0 p).2.1 a, ?_⟩
  · intro a ha
    apply storeLoop_mem
    intro k2 h1 h2
    rw [Nat.mod_eq_of_lt (by omega)]
    omega
  · intro j hj
    apply loadLoop_v
    intro k2 h1 h2
    omega

/-- Witness for registerBlock_spec at x = 2 on the BCD witness state:
I stays 0x300 for both instructions, register V5 and memory cell 0x299
are untouched. -/
theorem registerBlock_spec_witness :
    (setRegistersToMemory 2 pW5).i = pW5.i ∧
    (setMemoryToRegisters 2 pW5).i = pW5.i ∧
    (setRegistersToMemory 2 pW5).memory 0x299 = pW5.memory 0x299 ∧
    (setMemoryToRegisters 2 pW5).v 5 = pW5.v 5 :=
  ⟨(registerBlock_spec pW5 2 (by decide) (by decide)).1,
   (registerBlock_spec pW5 2 (by decide) (by decide)).2.2.2.1,
   (registerBlock_spec pW5 2 (by decide) (by decide)).2.2.1 0x299 (by decide),
   (registerBlock_spec pW5 2 (by decide) (by decide)).2.2.2.2.2 5 (by decide)⟩

/-! ### C7: truncating memory block transfer (Write / Read) -/

theorem writeLoop_frame : ∀ (data : List Nat) (loc k : Nat) (p : Processor),
    (writeLoop loc k p data).1.sp = p.sp ∧ (writeLoop loc k p data).1.v = p.v ∧
    (writeLoop loc k p data).1.pc = p.pc ∧ (writeLoop loc k p data).1.i = p.i ∧
    (writeLoop loc k p data).1.stack = p.stack ∧
    (writeLoop loc k p data).1.keyState = p.keyState ∧
    (writeLoop loc k p data).1.display = p.display ∧
    (writeLoop loc k p data).1.delay = p.delay ∧
    (writeLoop loc k p data).1.sound = p.sound := by
  intro data
  induction data with
  | nil => intro loc k p; exact ⟨rfl, rfl, rfl, rfl, rfl, rfl, rfl, rfl, rfl⟩
  | cons d rest ih =>
    intro loc k p
    simp only [writeLoop]
    split
    · exact ih loc (k + 1) _
    · exact ⟨rfl, rfl, rfl, rfl, rfl, rfl, rfl, rfl, rfl⟩

theorem writeLoop_count : ∀ (data : List Nat) (loc k : Nat) (p : Processor),
    loc + k ≤ 0xFFF →
    (writeLoop loc k p data).2 = min (k + data.length) (0xFFF - loc) := by
  intro data
  induction data with
  | nil =>
    intro loc k p h
    simp only [writeLoop, List.length_nil]
    omega
  | cons d rest ih =>
    intro loc k p h
    simp only [writeLoop, List.length_cons]
    rw [Nat.mod_eq_of_lt (by omega)]
    split <;> rename_i hc
    · rw [ih loc (k + 1) _ (by omega)]
      omega
    · exact show k = min (k + (rest.length + 1)) (4095 - loc) by omega

theorem writeLoop_mem_frame : ∀ (data : List Nat) (loc k : Nat) (p : Processor) (a : Nat),
    loc + k ≤ 0xFFF →
    (∀ k2, k ≤ k2 → k2 < 0xFFF - loc → k2 < k + data.length → a ≠ loc + k2) →
    (writeLoop loc k p data).1.memory a = p.memory a := by
  intro data
  induction data with
  | nil => intro loc k p a _ _; rfl
  | cons d rest ih =>
    intro loc k p a hk h
    simp only [writeLoop]
    rw [Nat.mod_eq_of_lt (by omega)]
    split <;> rename_i hc
    · rw [ih loc (k + 1) { p with memory := upd p.memory (loc + k) d } a
          (by omega)
          (fun k2 h1 h2 h3 => h k2 (by omega) h2 (by simp only [List.length_cons]; omega))]
      exact upd_ne _ _ _ _
        (h k (Nat.le_refl k) (by omega) (by simp only [List.length_cons]; omega))
    · rfl

theorem writeLoop_written : ∀ (data : List Nat) (loc k : Nat) (p : Processor) (j : Nat),
    loc + k ≤ 0xFFF → k ≤ j → j < (writeLoop loc k p data).2 →
    (writeLoop loc k p data).1.memory (loc + j) = data.getD (j - k) 0 := by
  intro data
  induction data with
  | nil =>
    intro loc k p j hk hj hlt
    exact absurd hlt (by simp only [writeLoop]; omega)
  | cons d rest ih =>
    intro loc k p j hk hj hlt
    simp only [writeLoop] at hlt ⊢
    rw [Nat.mod_eq_of_lt (by omega)] at hlt ⊢
    by_cases hc : loc + k < 0xFFF
    · rw [if_pos hc] at hlt ⊢
      by_cases hj2 : j = k
      · subst hj2
        rw [writeLoop_mem_frame rest loc (j + 1)
            { p with memory := upd p.memory (loc + j) d } (loc + j)
            (by omega) (fun k2 h1 h2 h3 => by intro hbad; omega)]
        rw [Nat.sub_self, List.getD_cons_zero]
        exact upd_self _ _ _
      · rw [ih loc (k + 1) _ j (by omega) (by omega) hlt]
        have hsub : j - k = (j - (k + 1)) + 1 := by omega
        rw [hsub, List.getD_cons_succ]
    · rw [if_neg hc] at hlt
      exact absurd hlt (by omega)

theorem readLoop_length : ∀ (fuel loc k : Nat) (p : Processor),
    loc + k ≤ 0xFFF →
    (readLoop loc k fuel p).length = min fuel (0xFFF - (loc + k)) := by
  intro fuel
  induction fuel with
  | zero => intro loc k p h; simp [readLoop]
  | succ n ih =>
    intro loc k p h
    simp only [readLoop]
    rw [Nat.mod_eq_of_lt (by omega)]
    split <;> rename_i hc
    · rw [List.length_cons, ih loc (k + 1) p (by omega)]
      omega
    · simp only [List.length_nil]
      omega

theorem readLoop_getD : ∀ (fuel loc k : Nat) (p : Processor) (j : Nat),
    loc + k ≤ 0xFFF → j < (readLoop loc k fuel p).length →
    (readLoop loc k fuel p).getD j 0 = p.memory (loc + k + j) := by
  intro fuel
  induction fuel with
  | zero => intro loc k p j _ hj; simp [readLoop] at hj
  | succ n ih =>
    intro loc k p j h hj
    simp only [readLoop] at hj ⊢
    rw [Nat.mod_eq_of_lt (by omega)] at hj ⊢
    by_cases hc : loc + k < 0xFFF
    · rw [if_pos hc] at hj ⊢
      match j with
      | 0 =>
        rw [List.getD_cons_zero, Nat.add_zero]
      | j0 + 1 =>
        rw [List.getD_cons_succ]
        rw [List.length_cons] at hj
        rw [ih loc (k + 1) p j0 (by omega) (by omega)]
        congr 1
        omega
    · rw [if_neg hc] at hj
      simp at hj


/-- C7 counterexample.  The claim says Write(loc, data) transfers
min(len(data), 0x1000 - loc) bytes, reaching up to and including address
0xFFF.  The loop condition in the code is loc+i < 0xFFF, so address
0xFFF is never transferred: Write(0xFFE, [7, 8]) transfers and reports
1 byte, not the claimed min(2, 0x1000 - 0xFFE) = 2. -/
theorem write_claim_cex :
    (Write 0xFFE [7, 8] zeroProcessor).2 = 1 ∧
    min 2 (0x1000 - 0xFFE) = 2 ∧ (1 : Nat) ≠ 2 :=
  ⟨by decide, by decide, by decide⟩

/-- C7 (amended): for every start address loc in 0..0xFFF, Write(loc,
data) copies bytes to consecutive addresses from loc up to and including
at most address 0xFFE, transferring exactly min(len(data), 0xFFF - loc)
bytes, dropping the bytes that would land on address 0xFFF or beyond,
returns the number of bytes transferred, and never faults (it is a total
function); Read behaves symmetrically, returning the transfer count and
filling the caller's buffer from the same address window. -/
theorem memoryReadWrite_spec (p : Processor) (loc : Nat) (data : List Nat) (len : Nat)
    (hloc : loc ≤ 0xFFF) :
    (Write loc data p).2 = min data.length (0xFFF - loc) ∧
    (∀ j, j < min data.length (0xFFF - loc) →
      (Write loc data p).1.memory (loc + j) = data.getD j 0) ∧
    (∀ a, a < loc ∨ loc + min data.length (0xFFF - loc) ≤ a →
      (Write loc data p).1.memory a = p.memory a) ∧
    (Read loc len p).2 = min len (0xFFF - loc) ∧
    (∀ j, j < min len (0xFFF - loc) → (Read loc len p).1.getD j 0 = p.memory (loc + j)) := by
  have hcount : (Write loc data p).2 = min data.length (0xFFF - loc) := by
    unfold Write
    rw [writeLoop_count data loc 0 p (by omega)]
    omega
  refine ⟨hcount, ?_, ?_, ?_, ?_⟩
  · intro j hj
    unfold Write
    have h := writeLoop_written data loc 0 p j (by omega) (Nat.zero_le j) ?hin
    · rw [Nat.sub_zero] at h
      exact h
    · unfold Write at hcount
      omega
  · intro a ha
    unfold Write
    apply writeLoop_mem_frame data loc 0 p a (by omega)
    intro k2 h1 h2 h3
    omega
  · show (readLoop loc 0 len p).length = _
    rw [readLoop_length len loc 0 p (by omega)]
    omega
  · intro j hj
    show (readLoop loc 0 len p).getD j 0 = _
    rw [readLoop_getD len loc 0 p j (by omega)
        (by rw [readLoop_length len loc 0 p (by omega)]; omega)]
    congr 1

/-- Witness for memoryReadWrite_spec at loc = 0xFFD with a 3-byte
payload: exactly 2 bytes transfer, cell 0xFFD receives the first byte,
cell 0xFFF stays untouched, and Read reports 2 from the same window. -/
theorem memoryReadWrite_spec_witness :
    (Write 0xFFD [7, 8, 9] zeroProcessor).2 = min 3 (0xFFF - 0xFFD) ∧
    (Write 0xFFD [7, 8, 9] zeroProcessor).1.memory (0xFFD + 0) = [7, 8, 9].getD 0 0 ∧
    (Write 0xFFD [7, 8, 9] zeroProcessor).1.memory 0xFFF = zeroProcessor.memory 0xFFF ∧
    (Read 0xFFD 3 zeroProcessor).2 = min 3 (0xFFF - 0xFFD) :=
  ⟨(memoryReadWrite_spec zeroProcessor 0xFFD [7, 8, 9] 3 (by decide)).1,
   (memoryReadWrite_spec zeroProcessor 0xFFD [7, 8, 9] 3 (by decide)).2.1 0 (by decide),
   (memoryReadWrite_spec zeroProcessor 0xFFD [7, 8, 9] 3 (by decide)).2.2.1 0xFFF
     (by decide),
   (memoryReadWrite_spec zeroProcessor 0xFFD [7, 8, 9] 3 (by decide)).2.2.2.1⟩

/-! ### C4 / C10: characterisation of DrawSprite -/

theorem drawPixel_frame (idx : Nat) (p : Processor) :
    (drawPixel idx p).memory = p.memory ∧ (drawPixel idx p).i = p.i ∧
    (drawPixel idx p).pc = p.pc ∧ (drawPixel idx p).sp = p.sp ∧
    (drawPixel idx p).stack = p.stack ∧ (drawPixel idx p).keyState = p.keyState ∧
    (drawPixel idx p).delay = p.delay ∧ (drawPixel idx p).sound = p.sound := by
  unfold drawPixel
  dsimp only
  split <;> exact ⟨rfl, rfl, rfl, rfl, rfl, rfl, rfl, rfl⟩

theorem drawPixel_display (idx : Nat) (p : Processor) (a : Nat) :
    (drawPixel idx p).display a = if a = idx then p.display a ^^^ 1 else p.display a := by
  unfold drawPixel
  dsimp only
  split <;> by_cases h : a = idx <;> simp [upd, h]

theorem drawPixel_vf (idx : Nat) (p : Processor) :
    (drawPixel idx p).v 15 = if p.display idx = 1 then 1 else p.v 15 := by
  unfold drawPixel
  dsimp only
  split <;> rename_i h <;> simp [upd, h, CarryFlag]

theorem drawPixel_v (idx : Nat) (p : Processor) (j : Nat) (hj : j ≠ 15) :
    (drawPixel idx p).v j = p.v j := by
  unfold drawPixel
  dsimp only
  split <;> simp [upd, hj, CarryFlag]

theorem colHit_bound (sx sy row spr : Nat) : ∀ fuel col idx,
    colHit sx sy row spr fuel col idx = true →
    ∃ c, col ≤ c ∧ c < col + fuel ∧ sx + c < 64 ∧
      spr &&& (0x80 >>> c) ≠ 0 ∧ idx = sx + c + (sy + row) * 64 := by
  intro fuel
  induction fuel with
  | zero => intro col idx h; simp [colHit] at h
  | succ n ih =>
    intro col idx h
    simp only [colHit] at h
    by_cases hg : 64 ≤ sx + col
    · rw [if_pos hg] at h
      exact absurd h (by simp)
    · rw [if_neg hg] at h
      simp only [Bool.or_eq_true, Bool.and_eq_true, decide_eq_true_eq] at h
      rcases h with ⟨hbit, hidx⟩ | htail
      · exact ⟨col, Nat.le_refl col, by omega, by omega, hbit, hidx⟩
      · obtain ⟨c, h1, h2, h3, h4, h5⟩ := ih (col + 1) idx htail
        exact ⟨c, by omega, by omega, h3, h4, h5⟩

theorem colHit_widen (sx sy row spr : Nat) (fuel col idx : Nat)
    (h : colHit sx sy row spr fuel (col + 1) idx = true) :
    colHit sx sy row spr (fuel + 1) col idx = true := by
  obtain ⟨c, h1, h2, h3, h4, h5⟩ := colHit_bound sx sy row spr fuel (col + 1) idx h
  simp only [colHit]
  rw [if_neg (by omega)]
  simp only [Bool.or_eq_true]
  exact Or.inr h

theorem colHit_head (sx sy row spr col : Nat) (hg : ¬ 64 ≤ sx + col)
    (hbit : spr &&& (0x80 >>> col) ≠ 0) (fuel : Nat) :
    colHit sx sy row spr (fuel + 1) col (sx + col + (sy + row) * 64) = true := by
  simp only [colHit]
  rw [if_neg hg]
  simp [hbit]

theorem colCollide_congr (sx sy row spr : Nat) (d d2 : Nat → Nat) : ∀ fuel col,
    (∀ idx, colHit sx sy row spr fuel col idx = true → d idx = d2 idx) →
    colCollide sx sy row spr d fuel col = colCollide sx sy row spr d2 fuel col := by
  intro fuel
  induction fuel with
  | zero => intro col _; rfl
  | succ n ih =>
    intro col h
    simp only [colCollide]
    by_cases hg : 64 ≤ sx + col
    · rw [if_pos hg, if_pos hg]
    · rw [if_neg hg, if_neg hg]
      have htail : colCollide sx sy row spr d n (col + 1) =
          colCollide sx sy row spr d2 n (col + 1) :=
        ih (col + 1) (fun idx hhit => h idx (colHit_widen sx sy row spr n col idx hhit))
      congr 1
      · by_cases hbit : spr &&& (0x80 >>> col) ≠ 0
        · have hd : d (sx + col + (sy + row) * 64) = d2 (sx + col + (sy + row) * 64) :=
            h _ (colHit_head sx sy row spr col hg hbit n)
          rw [hd]
        · simp [hbit]

theorem colCollide_exists (sx sy row spr : Nat) (d : Nat → Nat) : ∀ fuel col,
    colCollide sx sy row spr d fuel col = true ↔
    ∃ idx, colHit sx sy row spr fuel col idx = true ∧ d idx = 1 := by
  intro fuel
  induction fuel with
  | zero => intro col; simp [colCollide, colHit]
  | succ n ih =>
    intro col
    by_cases hg : 64 ≤ sx + col
    · simp [colCollide, colHit, hg]
    · simp only [colCollide, colHit, if_neg hg, Bool.or_eq_true, Bool.and_eq_true,
        decide_eq_true_eq]
      constructor
      · intro h
        rcases h with ⟨hbit, hd⟩ | htail
        · exact ⟨sx + col + (sy + row) * 64, Or.inl ⟨hbit, rfl⟩, hd⟩
        · obtain ⟨idx, hhit, hd⟩ := (ih (col + 1)).mp htail
          exact ⟨idx, Or.inr hhit, hd⟩
      · intro h
        obtain ⟨idx, hhit, hd⟩ := h
        rcases hhit with ⟨hbit, hidx⟩ | htail
        · exact Or.inl ⟨hbit, hidx ▸ hd⟩
        · exact Or.inr ((ih (col + 1)).mpr ⟨idx, htail, hd⟩)

theorem drawCols_char (sx sy row spr : Nat) : ∀ fuel col p,
    ((drawCols sx sy row spr fuel col p).memory = p.memory ∧
     (drawCols sx sy row spr fuel col p).i = p.i ∧
     (drawCols sx sy row spr fuel col p).pc = p.pc ∧
     (drawCols sx sy row spr fuel col p).sp = p.sp ∧
     (drawCols sx sy row spr fuel col p).stack = p.stack ∧
     (drawCols sx sy row spr fuel col p).keyState = p.keyState ∧
     (drawCols sx sy row spr fuel col p).delay = p.delay ∧
     (drawCols sx sy row spr fuel col p).sound = p.sound) ∧
    (∀ j, j ≠ 15 → (drawCols sx sy row spr fuel col p).v j = p.v j) ∧
    ((drawCols sx sy row spr fuel col p).v 15 =
       if colCollide sx sy row spr p.display fuel col then 1 else p.v 15) ∧
    (∀ idx, (drawCols sx sy row spr fuel col p).display idx =
       if colHit sx sy row spr fuel col idx then p.display idx ^^^ 1 else p.display idx) := by
  intro fuel
  induction fuel with
  | zero =>
    intro col p
    refine ⟨⟨rfl, rfl, rfl, rfl, rfl, rfl, rfl, rfl⟩, fun j _ => rfl, ?_, fun idx => ?_⟩
    · simp [drawCols, colCollide]
    · simp [drawCols, colHit]
  | succ n ih =>
    intro col p
    by_cases hg : 64 ≤ sx + col
    · have hstep : drawCols sx sy row spr (n + 1) col p = p := by
        simp only [drawCols]
        rw [if_pos hg]
      rw [hstep]
      refine ⟨⟨rfl, rfl, rfl, rfl, rfl, rfl, rfl, rfl⟩, fun j _ => rfl, ?_, fun idx => ?_⟩
      · simp [colCollide, hg]
      · simp [colHit, hg]
    · by_cases hbit : spr &&& (0x80 >>> col) ≠ 0
      · -- bit set: this iteration XORs cell idx0
        have hstep : drawCols sx sy row spr (n + 1) col p =
            drawCols sx sy row spr n (col + 1)
              (drawPixel (sx + col + (sy + row) * 64) p) := by
          simp only [drawCols]
          rw [if_neg hg]
          simp [hbit]
        rw [hstep]
        obtain ⟨hfr, hv, hvf, hdisp⟩ := ih (col + 1) (drawPixel (sx + col + (sy + row) * 64) p)
        obtain ⟨pm, pi, ppc, psp, pst, pk, pd, pso⟩ :=
          drawPixel_frame (sx + col + (sy + row) * 64) p
        have hnotail : colHit sx sy row spr n (col + 1) (sx + col + (sy + row) * 64) = false := by
          cases hh : colHit sx sy row spr n (col + 1) (sx + col + (sy + row) * 64)
          · rfl
          · obtain ⟨c, h1, h2, h3, h4, h5⟩ := colHit_bound sx sy row spr n (col + 1) _ hh
            omega
        refine ⟨⟨hfr.1.trans pm, hfr.2.1.trans pi, hfr.2.2.1.trans ppc,
                 hfr.2.2.2.1.trans psp, hfr.2.2.2.2.1.trans pst,
                 hfr.2.2.2.2.2.1.trans pk, hfr.2.2.2.2.2.2.1.trans pd,
                 hfr.2.2.2.2.2.2.2.trans pso⟩,
               fun j hj => (hv j hj).trans (drawPixel_v _ p j hj), ?_, fun idx => ?_⟩
        · rw [hvf]
          have hcng : colCollide sx sy row spr
              ((drawPixel (sx + col + (sy + row) * 64) p).display) n (col + 1) =
              colCollide sx sy row spr p.display n (col + 1) := by
            apply colCollide_congr
            intro idx hhit
            rw [drawPixel_display]
            have hne : idx ≠ sx + col + (sy + row) * 64 := by
              intro he
              rw [he, hnotail] at hhit
              simp at hhit
            rw [if_neg hne]
          rw [hcng, drawPixel_vf]
          have hexp : colCollide sx sy row spr p.display (n + 1) col =
              (decide (p.display (sx + col + (sy + row) * 64) = 1)
               || colCollide sx sy row spr p.display n (col + 1)) := by
            simp only [colCollide]
            rw [if_neg hg]
            simp [hbit]
          rw [hexp]
          cases hc : colCollide sx sy row spr p.display n (col + 1) <;>
            by_cases h1 : p.display (sx + col + (sy + row) * 64) = 1 <;>
            simp [h1]
        · rw [hdisp idx]
          simp only [drawPixel_display]
          have hexp2 : colHit sx sy row spr (n + 1) col idx =
              (decide (idx = sx + col + (sy + row) * 64)
               || colHit sx sy row spr n (col + 1) idx) := by
            simp only [colHit]
            rw [if_neg hg]
            simp [hbit]
          rw [hexp2]
          by_cases hi : idx = sx + col + (sy + row) * 64
          · subst hi
            simp [hnotail]
          · simp [hi]
      · have hstep : drawCols sx sy row spr (n + 1) col p =
            drawCols sx sy row spr n (col + 1) p := by
          simp only [drawCols]
          rw [if_neg hg]
          simp [hbit]
        rw [hstep]
        obtain ⟨hfr, hv, hvf, hdisp⟩ := ih (col + 1) p
        have hcol : colCollide sx sy row spr p.display (n + 1) col =
            colCollide sx sy row spr p.display n (col + 1) := by
          simp only [colCollide]
          rw [if_neg hg]
          simp [hbit]
        have hhit : ∀ idx, colHit sx sy row spr (n + 1) col idx =
            colHit sx sy row spr n (col + 1) idx := by
          intro idx
          simp only [colHit]
          rw [if_neg hg]
          simp [hbit]
        refine ⟨hfr, hv, ?_, fun idx => ?_⟩
        · rw [hvf, hcol]
        · rw [hdisp idx, hhit idx]

theorem rowHit_bound (sx sy : Nat) (mem : Nat → Nat) (iReg : Nat) : ∀ fuel row idx,
    rowHit sx sy mem iReg fuel row idx = true →
    ∃ r, row ≤ r ∧ r < row + fuel ∧ sy + r < 32 ∧
      ∃ c, c < 8 ∧ sx + c < 64 ∧ idx = sx + c + (sy + r) * 64 := by
  intro fuel
  induction fuel with
  | zero => intro row idx h; simp [rowHit] at h
  | succ n ih =>
    intro row idx h
    simp only [rowHit] at h
    by_cases hg : 32 ≤ sy + row
    · rw [if_pos hg] at h
      exact absurd h (by simp)
    · rw [if_neg hg] at h
      simp only [Bool.or_eq_true] at h
      rcases h with hhead | htail
      · obtain ⟨c, h1, h2, h3, h4, h5⟩ := colHit_bound sx sy row _ 8 0 idx hhead
        exact ⟨row, Nat.le_refl row, by omega, by omega, c, by omega, h3, h5⟩
      · obtain ⟨r, h1, h2, h3, c, h4, h5, h6⟩ := ih (row + 1) idx htail
        exact ⟨r, by omega, by omega, h3, c, h4, h5, h6⟩

theorem rowHit_widen (sx sy : Nat) (mem : Nat → Nat) (iReg : Nat) (fuel row idx : Nat)
    (h : rowHit sx sy mem iReg fuel (row + 1) idx = true) :
    rowHit sx sy mem iReg (fuel + 1) row idx = true := by
  obtain ⟨r, h1, h2, h3, _⟩ := rowHit_bound sx sy mem iReg fuel (row + 1) idx h
  simp only [rowHit]
  rw [if_neg (by omega)]
  simp only [Bool.or_eq_true]
  exact Or.inr h

theorem rowHit_head (sx sy : Nat) (mem : Nat → Nat) (iReg : Nat) (fuel row idx : Nat)
    (hg : ¬ 32 ≤ sy + row)
    (h : colHit sx sy row (mem ((iReg + row) % 65536)) 8 0 idx = true) :
    rowHit sx sy mem iReg (fuel + 1) row idx = true := by
  simp only [rowHit]
  rw [if_neg hg]
  simp only [Bool.or_eq_true]
  exact Or.inl h

/-- Distinct rows of one sprite draw touch disjoint framebuffer cells:
a cell XORed by the current row cannot be XORed again by later rows. -/
theorem row_disjoint (sx sy : Nat) (mem : Nat → Nat) (iReg : Nat) (fuel row idx : Nat)
    (hcur : colHit sx sy row (mem ((iReg + row) % 65536)) 8 0 idx = true) :
    rowHit sx sy mem iReg fuel (row + 1) idx = false := by
  cases hh : rowHit sx sy mem iReg fuel (row + 1) idx
  · rfl
  · obtain ⟨c, _, hc2, hc3, _, hc5⟩ := colHit_bound sx sy row _ 8 0 idx hcur
    obtain ⟨r, h1, h2, h3, c2, h4, h5, h6⟩ := rowHit_bound sx sy mem iReg fuel (row + 1) idx hh
    omega

theorem rowCollide_congr (sx sy : Nat) (mem : Nat → Nat) (iReg : Nat) (d d2 : Nat → Nat) :
    ∀ fuel row,
    (∀ idx, rowHit sx sy mem iReg fuel row idx = true → d idx = d2 idx) →
    rowCollide sx sy mem iReg d fuel row = rowCollide sx sy mem iReg d2 fuel row := by
  intro fuel
  induction fuel with
  | zero => intro row _; rfl
  | succ n ih =>
    intro row h
    simp only [rowCollide]
    by_cases hg : 32 ≤ sy + row
    · rw [if_pos hg, if_pos hg]
    · rw [if_neg hg, if_neg hg]
      congr 1
      · exact colCollide_congr sx sy row _ d d2 8 0
          (fun idx hhit => h idx (rowHit_head sx sy mem iReg n row idx hg hhit))
      · exact ih (row + 1)
          (fun idx hhit => h idx (rowHit_widen sx sy mem iReg n row idx hhit))

theorem rowCollide_exists (sx sy : Nat) (mem : Nat → Nat) (iReg : Nat) (d : Nat → Nat) :
    ∀ fuel row,
    rowCollide sx sy mem iReg d fuel row = true ↔
    ∃ idx, rowHit sx sy mem iReg fuel row idx = true ∧ d idx = 1 := by
  intro fuel
  induction fuel with
  | zero => intro row; simp [rowCollide, rowHit]
  | succ n ih =>
    intro row
    by_cases hg : 32 ≤ sy + row
    · simp [rowCollide, rowHit, hg]
    · simp only [rowCollide, rowHit, if_neg hg, Bool.or_eq_true]
      rw [colCollide_exists]
      constructor
      · intro h
        rcases h with ⟨idx, hhit, hd⟩ | htail
        · exact ⟨idx, Or.inl hhit, hd⟩
        · obtain ⟨idx, hhit, hd⟩ := (ih (row + 1)).mp htail
          exact ⟨idx, Or.inr hhit, hd⟩
      · intro h
        obtain ⟨idx, hhit, hd⟩ := h
        rcases hhit with hhead | htail
        · exact Or.inl ⟨idx, hhead, hd⟩
        · exact Or.inr ((ih (row + 1)).mpr ⟨idx, htail, hd⟩)

theorem drawRows_char (sx sy : Nat) : ∀ fuel row p,
    ((drawRows sx sy fuel row p).memory = p.memory ∧
     (drawRows sx sy fuel row p).i = p.i ∧
     (drawRows sx sy fuel row p).pc = p.pc ∧
     (drawRows sx sy fuel row p).sp = p.sp ∧
     (drawRows sx sy fuel row p).stack = p.stack ∧
     (drawRows sx sy fuel row p).keyState = p.keyState ∧
     (drawRows sx sy fuel row p).delay = p.delay ∧
     (drawRows sx sy fuel row p).sound = p.sound) ∧
    (∀ j, j ≠ 15 → (drawRows sx sy fuel row p).v j = p.v j) ∧
    ((drawRows sx sy fuel row p).v 15 =
       if rowCollide sx sy p.memory p.i p.display fuel row then 1 else p.v 15) ∧
    (∀ idx, (drawRows sx sy fuel row p).display idx =
       if rowHit sx sy p.memory p.i fuel row idx then p.display idx ^^^ 1 else p.display idx) := by
  intro fuel
  induction fuel with
  | zero =>
    intro row p
    refine ⟨⟨rfl, rfl, rfl, rfl, rfl, rfl, rfl, rfl⟩, fun j _ => rfl, ?_, fun idx => ?_⟩
    · simp [drawRows, rowCollide]
    · simp [drawRows, rowHit]
  | succ n ih =>
    intro row p
    by_cases hg : 32 ≤ sy + row
    · have hstep : drawRows sx sy (n + 1) row p = p := by
        simp only [drawRows]
        rw [if_pos hg]
      rw [hstep]
      refine ⟨⟨rfl, rfl, rfl, rfl, rfl, rfl, rfl, rfl⟩, fun j _ => rfl, ?_, fun idx => ?_⟩
      · simp [rowCollide, hg]
      · simp [rowHit, hg]
    · have hstep : drawRows sx sy (n + 1) row p =
          drawRows sx sy n (row + 1)
            (drawCols sx sy row (p.memory ((p.i + row) % 65536)) 8 0 p) := by
        simp only [drawRows]
        rw [if_neg hg]
      rw [hstep]
      obtain ⟨cfr, cv, cvf, cdisp⟩ :=
        drawCols_char sx sy row (p.memory ((p.i + row) % 65536)) 8 0 p
      obtain ⟨rfr, rv, rvf, rdisp⟩ :=
        ih (row + 1) (drawCols sx sy row (p.memory ((p.i + row) % 65536)) 8 0 p)
      rw [cfr.1, cfr.2.1] at rvf rdisp
      refine ⟨⟨rfr.1.trans cfr.1, rfr.2.1.trans cfr.2.1, rfr.2.2.1.trans cfr.2.2.1,
               rfr.2.2.2.1.trans cfr.2.2.2.1, rfr.2.2.2.2.1.trans cfr.2.2.2.2.1,
               rfr.2.2.2.2.2.1.trans cfr.2.2.2.2.2.1,
               rfr.2.2.2.2.2.2.1.trans cfr.2.2.2.2.2.2.1,
               rfr.2.2.2.2.2.2.2.trans cfr.2.2.2.2.2.2.2⟩,
             fun j hj => (rv j hj).trans (cv j hj), ?_, fun idx => ?_⟩
      · rw [rvf]
        have hcng : rowCollide sx sy p.memory p.i
            ((drawCols sx sy row (p.memory ((p.i + row) % 65536)) 8 0 p).display)
            n (row + 1) =
            rowCollide sx sy p.memory p.i p.display n (row + 1) := by
          apply rowCollide_congr
          intro idx hhit
          rw [cdisp idx]
          have hne : colHit sx sy row (p.memory ((p.i + row) % 65536)) 8 0 idx = false := by
            cases hh : colHit sx sy row (p.memory ((p.i + row) % 65536)) 8 0 idx
            · rfl
            · rw [row_disjoint sx sy p.memory p.i n row idx hh] at hhit
              simp at hhit
          rw [hne]
          simp
        rw [hcng, cvf]
        have hexp : rowCollide sx sy p.memory p.i p.display (n + 1) row =
            (colCollide sx sy row (p.memory ((p.i + row) % 65536)) p.display 8 0
             || rowCollide sx sy p.memory p.i p.display n (row + 1)) := by
          simp only [rowCollide]
          rw [if_neg hg]
        rw [hexp]
        cases hc : rowCollide sx sy p.memory p.i p.display n (row + 1) <;>
          cases h1 : colCollide sx sy row (p.memory ((p.i + row) % 65536)) p.display 8 0 <;>
          simp
      · rw [rdisp idx, cdisp idx]
        have hexp2 : rowHit sx sy p.memory p.i (n + 1) row idx =
            (colHit sx sy row (p.memory ((p.i + row) % 65536)) 8 0 idx
             || rowHit sx sy p.memory p.i n (row + 1) idx) := by
          simp only [rowHit]
          rw [if_neg hg]
        rw [hexp2]
        cases hh : colHit sx sy row (p.memory ((p.i + row) % 65536)) 8 0 idx
        · simp
        · rw [row_disjoint sx sy p.memory p.i n row idx hh]
          simp

theorem xor_one_ne (a : Nat) : a ^^^ 1 ≠ a := by
  intro h
  have h2 := congrArg (fun t => Nat.testBit t 0) h
  simp [Nat.testBit_xor] at h2
  omega

/-- Full characterisation of Processor.DrawSprite: every field except the
framebuffer and VF is preserved, VF becomes 1 exactly on collision, and
each framebuffer cell is XORed with 1 exactly when the sprite hits it. -/
theorem DrawSprite_char (x y n : Nat) (p : Processor) :
    ((DrawSprite x y n p).memory = p.memory ∧
     (DrawSprite x y n p).i = p.i ∧
     (DrawSprite x y n p).pc = p.pc ∧
     (DrawSprite x y n p).sp = p.sp ∧
     (DrawSprite x y n p).stack = p.stack ∧
     (DrawSprite x y n p).keyState = p.keyState ∧
     (DrawSprite x y n p).delay = p.delay ∧
     (DrawSprite x y n p).sound = p.sound) ∧
    (∀ j, j ≠ 15 → (DrawSprite x y n p).v j = p.v j) ∧
    ((DrawSprite x y n p).v 15 = if spriteCollide p x y n then 1 else 0) ∧
    (∀ idx, (DrawSprite x y n p).display idx =
       if spriteHit p x y n idx then p.display idx ^^^ 1 else p.display idx) := by
  obtain ⟨hfr, hv, hvf, hdisp⟩ :=
    drawRows_char (p.v x &&& 63) (p.v y &&& 31) n 0 { p with v := upd p.v CarryFlag 0 }
  unfold DrawSprite
  dsimp only
  refine ⟨⟨hfr.1, hfr.2.1, hfr.2.2.1, hfr.2.2.2.1, hfr.2.2.2.2.1,
           hfr.2.2.2.2.2.1, hfr.2.2.2.2.2.2.1, hfr.2.2.2.2.2.2.2⟩,
          fun j hj => (hv j hj).trans (upd_ne _ _ _ _ hj), ?_, fun idx => hdisp idx⟩
  rw [hvf]
  unfold spriteCollide
  simp [upd, CarryFlag]

/-- C4: drawing the same sprite twice with identical Vx, Vy (and the
sprite memory and index register are untouched by a draw) restores every
framebuffer cell, and the second draw reports a collision exactly when
the first draw turned at least one pixel on. -/
theorem drawTwice_spec (p : Processor) (x y n : Nat)
    (hx : (DrawSprite x y n p).v x = p.v x)
    (hy : (DrawSprite x y n p).v y = p.v y) :
    (∀ idx, (DrawSprite x y n (DrawSprite x y n p)).display idx = p.display idx) ∧
    ((DrawSprite x y n (DrawSprite x y n p)).v CarryFlag = 1 ↔
      ∃ idx, (DrawSprite x y n p).display idx ≠ p.display idx ∧
             (DrawSprite x y n p).display idx = 1) := by
  obtain ⟨hfr1, hv1, hvf1, hdisp1⟩ := DrawSprite_char x y n p
  obtain ⟨hfr2, hv2, hvf2, hdisp2⟩ := DrawSprite_char x y n (DrawSprite x y n p)
  have hhit : ∀ idx, spriteHit (DrawSprite x y n p) x y n idx = spriteHit p x y n idx := by
    intro idx
    unfold spriteHit
    rw [hx, hy, hfr1.1, hfr1.2.1]
  have hcol : spriteCollide (DrawSprite x y n p) x y n =
      rowCollide (p.v x &&& 63) (p.v y &&& 31) p.memory p.i
        ((DrawSprite x y n p).display) n 0 := by
    unfold spriteCollide
    rw [hx, hy, hfr1.1, hfr1.2.1]
  have hex := rowCollide_exists (p.v x &&& 63) (p.v y &&& 31) p.memory p.i
    ((DrawSprite x y n p).display) n 0
  unfold CarryFlag
  constructor
  · intro idx
    rw [hdisp2 idx, hhit idx]
    simp only [hdisp1 idx]
    cases hsp : spriteHit p x y n idx <;> simp [Nat.xor_cancel_right]
  · rw [hvf2, hcol]
    constructor
    · intro h1
      have hc : rowCollide (p.v x &&& 63) (p.v y &&& 31) p.memory p.i
          ((DrawSprite x y n p).display) n 0 = true := by
        cases hcc : rowCollide (p.v x &&& 63) (p.v y &&& 31) p.memory p.i
            ((DrawSprite x y n p).display) n 0
        · rw [hcc] at h1
          simp at h1
        · rfl
      obtain ⟨idx, hhit2, hd⟩ := hex.mp hc
      refine ⟨idx, ?_, hd⟩
      rw [hdisp1 idx]
      have hsp : spriteHit p x y n idx = true := hhit2
      rw [if_pos hsp]
      exact xor_one_ne (p.display idx)
    · intro h
      obtain ⟨idx, hne, hd⟩ := h
      have hsp : spriteHit p x y n idx = true := by
        cases hss : spriteHit p x y n idx
        · rw [hdisp1 idx, hss] at hne
          simp at hne
        · rfl
      have hc := hex.mpr ⟨idx, hsp, hd⟩
      rw [if_pos hc]

/-- Witness for drawTwice_spec on a one-row sprite at the origin. -/
theorem drawTwice_spec_witness :
    (∀ idx, (DrawSprite 0 1 1 (DrawSprite 0 1 1 pW4)).display idx = pW4.display idx) ∧
    ((DrawSprite 0 1 1 (DrawSprite 0 1 1 pW4)).v CarryFlag = 1 ↔
      ∃ idx, (DrawSprite 0 1 1 pW4).display idx ≠ pW4.display idx ∧
             (DrawSprite 0 1 1 pW4).display idx = 1) :=
  drawTwice_spec pW4 0 1 1 (by decide) (by decide)

/-- C10: DrawSprite changes only framebuffer cells inside the clipped
sprite rectangle (columns startX..min(startX+7, 63), rows
startY..min(startY+n-1, 31) with startX = Vx mod 64, startY = Vy mod
32); it modifies no memory byte and no register other than VF. -/
theorem drawSprite_frame_spec (p : Processor) (x y n : Nat) :
    (DrawSprite x y n p).memory = p.memory ∧
    (DrawSprite x y n p).i = p.i ∧
    (DrawSprite x y n p).pc = p.pc ∧
    (∀ j, j ≠ 15 → (DrawSprite x y n p).v j = p.v j) ∧
    (∀ c r, c < 64 → r < 32 →
      (c < p.v x % 64 ∨ min (p.v x % 64 + 7) 63 < c ∨
       r < p.v y % 32 ∨ min (p.v y % 32 + n - 1) 31 < r) →
      (DrawSprite x y n p).display (c + r * 64) = p.display (c + r * 64)) := by
  obtain ⟨hfr, hv, hvf, hdisp⟩ := DrawSprite_char x y n p
  refine ⟨hfr.1, hfr.2.1, hfr.2.2.1, hv, ?_⟩
  intro c r hc hr hout
  rw [hdisp]
  have hnohit : spriteHit p x y n (c + r * 64) = false := by
    cases hh : spriteHit p x y n (c + r * 64)
    · rfl
    · unfold spriteHit at hh
      obtain ⟨rr, h1, h2, h3, cc, h4, h5, h6⟩ := rowHit_bound _ _ _ _ n 0 _ hh
      rw [and63_eq_mod] at h5 h6
      rw [and31_eq_mod] at h3 h6
      omega
  rw [hnohit]
  simp

/-- Witness for drawSprite_frame_spec: a cell outside the sprite
rectangle keeps its value, and memory and PC are untouched. -/
theorem drawSprite_frame_spec_witness :
    (DrawSprite 0 1 1 pW4).memory = pW4.memory ∧
    (DrawSprite 0 1 1 pW4).pc = pW4.pc ∧
    (DrawSprite 0 1 1 pW4).display (10 + 10 * 64) = pW4.display (10 + 10 * 64) :=
  ⟨(drawSprite_frame_spec pW4 0 1 1).1,
   (drawSprite_frame_spec pW4 0 1 1).2.2.1,
   (drawSprite_frame_spec pW4 0 1 1).2.2.2.2 10 10 (by decide) (by decide) (by decide)⟩

/-! ### C6: block-until-key (Fx0A) under Step -/

theorem Step_eq (p : Processor) (op : Nat) (tick : Bool) (rnd : Nat) (p2 : Processor)
    (info : Nat)
    (hfetch : OpcodeAt p.pc p = some op)
    (hexec : Execute op { p with pc := (p.pc + 2) % 65536 } 0 rnd = some (p2, info)) :
    Step tick rnd p = some
      (if tick then { p2 with sound := p2.sound - 1, delay := p2.delay - 1 } else p2,
       if (if tick then { p2 with sound := p2.sound - 1, delay := p2.delay - 1 }
           else p2).delay > 0
       then (if (if tick then { p2 with sound := p2.sound - 1, delay := p2.delay - 1 }
                 else p2).sound > 0 then info ||| 2 else info) ||| 1
       else (if (if tick then { p2 with sound := p2.sound - 1, delay := p2.delay - 1 }
                 else p2).sound > 0 then info ||| 2 else info)) := by
  unfold Step
  rw [hfetch]
  dsimp only
  rw [hexec]

theorem tickCase_pc (tick : Bool) (q : Processor) :
    (if tick then { q with sound := q.sound - 1, delay := q.delay - 1 } else q).pc = q.pc := by
  cases tick <;> rfl

theorem tickCase_v (tick : Bool) (q : Processor) :
    (if tick then { q with sound := q.sound - 1, delay := q.delay - 1 } else q).v = q.v := by
  cases tick <;> rfl

theorem tickCase_memory (tick : Bool) (q : Processor) :
    (if tick then { q with sound := q.sound - 1, delay := q.delay - 1 } else q).memory =
      q.memory := by
  cases tick <;> rfl

theorem tickCase_sp (tick : Bool) (q : Processor) :
    (if tick then { q with sound := q.sound - 1, delay := q.delay - 1 } else q).sp = q.sp := by
  cases tick <;> rfl

theorem find?_range'_least (ks : Nat → Bool) (k : Nat) : ∀ (cnt s : Nat),
    s ≤ k → k < s + cnt → ks k = true → (∀ j, s ≤ j → j < k → ks j = false) →
    (List.range' s cnt).find? (fun j => ks j) = some k := by
  intro cnt
  induction cnt with
  | zero => intro s h1 h2 _ _; omega
  | succ n ih =>
    intro s h1 h2 hk hbelow
    rw [List.range'_succ]
    by_cases hs : s = k
    · subst hs
      exact List.find?_cons_of_pos _ hk
    · rw [List.find?_cons_of_neg _ (by simp [hbelow s (Nat.le_refl s) (by omega)])]
      exact ih (s + 1) (by omega) (by omega) hk (fun j hj1 hj2 => hbelow j (by omega) hj2)

/-- C6: a Step fetching Fx0A with no key set nets PC to the same
instruction (the -2 cancels the +2 advance) and modifies no register and
no memory, so the same instruction is re-fetched next Step; with at
least one key set, Vx receives the lowest-indexed set key and PC keeps
the normal +2 advance. -/
theorem keyWait_spec (p : Processor) (x : Nat) (tick : Bool) (rnd : Nat)
    (hx : x < 16)
    (hpc : p.pc + 1 < 0xFFF)
    (hhi : p.memory p.pc = 0xF0 + x)
    (hlo : p.memory (p.pc + 1) = 0x0A) :
    ((∀ k, k < 16 → p.keyState k = false) →
      ∃ p2 info, Step tick rnd p = some (p2, info) ∧
        p2.pc = p.pc ∧ (∀ j, p2.v j = p.v j) ∧ p2.memory = p.memory) ∧
    (∀ k, k < 16 → p.keyState k = true → (∀ j, j < k → p.keyState j = false) →
      ∃ p2 info, Step tick rnd p = some (p2, info) ∧
        p2.pc = p.pc + 2 ∧ p2.v x = k ∧ (∀ j, j ≠ x → p2.v j = p.v j)) := by
  have hfetch : OpcodeAt p.pc p = some (((0xF0 + x) <<< 8) ||| 0x0A) := by
    unfold OpcodeAt
    rw [Nat.mod_eq_of_lt (show p.pc < 65536 by omega),
        Nat.mod_eq_of_lt (show p.pc + 1 < 65536 by omega)]
    rw [if_pos ⟨by omega, by omega⟩, hhi, hlo]
  have hexec : ∀ q : Processor,
      Execute (((0xF0 + x) <<< 8) ||| 0x0A) q 0 rnd =
        some (pauseUntilKeyPressed x q, 0) := by
    interval_cases x <;> intro q <;> rfl
  constructor
  · intro hkeys
    have hfind : (List.range 16).find? (fun j => p.keyState j) = none := by
      rw [List.find?_eq_none]
      intro a ha
      simp [hkeys a (List.mem_range.mp ha)]
    have hpause : pauseUntilKeyPressed x { p with pc := (p.pc + 2) % 65536 } =
        { p with pc := (((p.pc + 2) % 65536) + 65534) % 65536 } := by
      unfold pauseUntilKeyPressed
      rw [hfind]
    refine ⟨_, _, Step_eq p _ tick rnd _ 0 hfetch
      (hexec { p with pc := (p.pc + 2) % 65536 }), ?_, ?_, ?_⟩
    · rw [tickCase_pc, hpause]
      show (((p.pc + 2) % 65536) + 65534) % 65536 = p.pc
      omega
    · intro j
      rw [tickCase_v, hpause]
    · rw [tickCase_memory, hpause]
  · intro k hk hkey hbelow
    have hfind : (List.range 16).find? (fun j => p.keyState j) = some k := by
      rw [List.range_eq_range']
      exact find?_range'_least p.keyState k 16 0 (Nat.zero_le k) (by omega) hkey
        (fun j _ hj2 => hbelow j hj2)
    have hpause : pauseUntilKeyPressed x { p with pc := (p.pc + 2) % 65536 } =
        { p with pc := (p.pc + 2) % 65536,
                 v := upd p.v x k } := by
      unfold pauseUntilKeyPressed
      rw [hfind]
    refine ⟨_, _, Step_eq p _ tick rnd _ 0 hfetch
      (hexec { p with pc := (p.pc + 2) % 65536 }), ?_, ?_, ?_⟩
    · rw [tickCase_pc, hpause]
      show (p.pc + 2) % 65536 = p.pc + 2
      omega
    · rw [tickCase_v, hpause]
      exact upd_self p.v x k
    · intro j hj
      rw [tickCase_v, hpause]
      exact upd_ne _ _ _ _ hj

/-- Witness for keyWait_spec: with no key set the Step completes, nets
PC back to 0x200 and leaves registers and memory unchanged. -/
theorem keyWait_spec_witness :
    ∃ p2 info, Step false 0 pW6 = some (p2, info) ∧
      p2.pc = pW6.pc ∧ (∀ j, p2.v j = pW6.v j) ∧ p2.memory = pW6.memory :=
  (keyWait_spec pW6 0 false 0 (by decide) (by decide) (by decide) (by decide)).1
    (fun k _ => rfl)

/-! ### C8: call-stack bound -/

theorem clearScreen_sp (p : Processor) : (clearScreen p).sp = p.sp := rfl

theorem jumpToLocation_sp (nnn : Nat) (p : Processor) :
    (jumpToLocation nnn p).sp = p.sp := rfl

theorem jumpWithOffset_sp (nnn : Nat) (p : Processor) :
    (jumpWithOffset nnn p).sp = p.sp := rfl

theorem stepIfXEqualsNN_sp (x nn : Nat) (p : Processor) :
    (stepIfXEqualsNN x nn p).sp = p.sp := by
  unfold stepIfXEqualsNN
  split <;> rfl

theorem stepIfXNotEqualsNN_sp (x nn : Nat) (p : Processor) :
    (stepIfXNotEqualsNN x nn p).sp = p.sp := by
  unfold stepIfXNotEqualsNN
  split <;> rfl

theorem stepIfXEqualsY_sp (x y : Nat) (p : Processor) :
    (stepIfXEqualsY x y p).sp = p.sp := by
  unfold stepIfXEqualsY
  split <;> rfl

theorem stepIfXNotEqualsY_sp (x y : Nat) (p : Processor) :
    (stepIfXNotEqualsY x y p).sp = p.sp := by
  unfold stepIfXNotEqualsY
  split <;> rfl

theorem setXToNN_sp (x nn : Nat) (p : Processor) : (setXToNN x nn p).sp = p.sp := rfl

theorem addNNToX_sp (x nn : Nat) (p : Processor) : (addNNToX x nn p).sp = p.sp := rfl

theorem setXToY_sp (x y : Nat) (p : Processor) : (setXToY x y p).sp = p.sp := rfl

theorem orXY_sp (x y : Nat) (p : Processor) : (orXY x y p).sp = p.sp := rfl

theorem andXY_sp (x y : Nat) (p : Processor) : (andXY x y p).sp = p.sp := rfl

theorem xorXY_sp (x y : Nat) (p : Processor) : (xorXY x y p).sp = p.sp := rfl

theorem addXY_sp (x y : Nat) (p : Processor) : (addXY x y p).sp = p.sp := by
  unfold addXY
  dsimp only
  split <;> rfl

theorem subtractYFromX_sp (x y : Nat) (p : Processor) :
    (subtractYFromX x y p).sp = p.sp := by
  unfold subtractYFromX
  dsimp only
  split <;> rfl

theorem subtractXFromY_sp (x y : Nat) (p : Processor) :
    (subtractXFromY x y p).sp = p.sp := by
  unfold subtractXFromY
  dsimp only
  split <;> rfl

theorem shiftRightX_sp (x : Nat) (p : Processor) : (shiftRightX x p).sp = p.sp := rfl

theorem shiftLeftX_sp (x : Nat) (p : Processor) : (shiftLeftX x p).sp = p.sp := rfl

theorem setIToNNN_sp (nnn : Nat) (p : Processor) : (setIToNNN nnn p).sp = p.sp := rfl

theorem setXToRandom_sp (x nn rnd : Nat) (p : Processor) :
    (setXToRandom x nn rnd p).sp = p.sp := rfl

theorem stepIfKeyDown_sp (x : Nat) (p : Processor) : (stepIfKeyDown x p).sp = p.sp := by
  unfold stepIfKeyDown
  split <;> rfl

theorem stepIfKeyUp_sp (x : Nat) (p : Processor) : (stepIfKeyUp x p).sp = p.sp := by
  unfold stepIfKeyUp
  split <;> rfl

theorem setXToDelay_sp (x : Nat) (p : Processor) : (setXToDelay x p).sp = p.sp := rfl

theorem pauseUntilKeyPressed_sp (x : Nat) (p : Processor) :
    (pauseUntilKeyPressed x p).sp = p.sp := by
  unfold pauseUntilKeyPressed
  cases h : (List.range 16).find? (fun k => p.keyState k) <;> rfl

theorem setDelayToX_sp (x : Nat) (p : Processor) : (setDelayToX x p).sp = p.sp := rfl

theorem setSoundToX_sp (x : Nat) (p : Processor) : (setSoundToX x p).sp = p.sp := rfl

theorem setIToX_sp (x : Nat) (p : Processor) : (setIToX x p).sp = p.sp := rfl

theorem setIToSymbol_sp (x : Nat) (p : Processor) : (setIToSymbol x p).sp = p.sp := rfl

theorem binaryCodedDecimal_sp (x : Nat) (p : Processor) :
    (binaryCodedDecimal x p).sp = p.sp := rfl

theorem setRegistersToMemory_sp (x : Nat) (p : Processor) :
    (setRegistersToMemory x p).sp = p.sp :=
  (storeLoop_frame (x + 1) 0 p).2.2.1

theorem setMemoryToRegisters_sp (x : Nat) (p : Processor) :
    (setMemoryToRegisters x p).sp = p.sp :=
  (loadLoop_frame (x + 1) 0 p).2.2.1

theorem DrawSprite_sp (x y n : Nat) (p : Processor) : (DrawSprite x y n p).sp = p.sp :=
  (DrawSprite_char x y n p).1.2.2.2.1

set_option maxHeartbeats 2000000 in
theorem Execute_sp (op : Nat) (p : Processor) (info rnd : Nat) (p2 : Processor) (i2 : Nat)
    (hsp : p.sp ≤ 16) (h : Execute op p info rnd = some (p2, i2)) : p2.sp ≤ 16 := by
  rw [Execute.eq_def] at h
  dsimp only at h
  have hk : (op &&& 0xF000) >>> 12 < 16 := by
    have h1 : op &&& 0xF000 ≤ 0xF000 := Nat.and_le_right
    rw [Nat.shiftRight_eq_div_pow]
    omega
  obtain ⟨k, hkdef, hklt⟩ : ∃ k, (op &&& 0xF000) >>> 12 = k ∧ k < 16 := ⟨_, rfl, hk⟩
  rw [hkdef] at h
  interval_cases k <;> norm_num at h
  all_goals try unfold callSubroutine at h
  all_goals try unfold returnFromSubroutine at h
  all_goals try split at h
  all_goals try split at h
  all_goals try split at h
  all_goals try split at h
  all_goals try split at h
  all_goals try split at h
  all_goals try split at h
  all_goals try split at h
  all_goals try split at h
  all_goals try simp only [Option.map_some', Option.map_none', Option.some.injEq,
    Prod.mk.injEq] at h
  all_goals
    first
      | exact Option.noConfusion h
      | (obtain ⟨h1, h2⟩ := h
         first
           | exact Option.noConfusion h2.1
           | (rw [← h2.2.1, ← h2.1]
              all_goals try dsimp only
              all_goals omega)
           | (rw [← h1]
              all_goals first
                | (simp only [clearScreen_sp, jumpToLocation_sp, jumpWithOffset_sp,
                    stepIfXEqualsNN_sp, stepIfXNotEqualsNN_sp, stepIfXEqualsY_sp,
                    stepIfXNotEqualsY_sp, setXToNN_sp, addNNToX_sp, setXToY_sp,
                    orXY_sp, andXY_sp, xorXY_sp, addXY_sp, subtractYFromX_sp,
                    subtractXFromY_sp, shiftRightX_sp, shiftLeftX_sp, setIToNNN_sp,
                    setXToRandom_sp, stepIfKeyDown_sp, stepIfKeyUp_sp, setXToDelay_sp,
                    pauseUntilKeyPressed_sp, setDelayToX_sp, setSoundToX_sp, setIToX_sp,
                    setIToSymbol_sp, binaryCodedDecimal_sp, setRegistersToMemory_sp,
                    setMemoryToRegisters_sp, DrawSprite_sp]
                   exact hsp)
                | (try dsimp only
                   omega)))

theorem Step_sp (tick : Bool) (rnd : Nat) (p p2 : Processor) (info : Nat)
    (hsp : p.sp ≤ 16) (h : Step tick rnd p = some (p2, info)) : p2.sp ≤ 16 := by
  unfold Step at h
  cases hfe : OpcodeAt p.pc p with
  | none =>
    rw [hfe] at h
    simp at h
  | some op =>
    rw [hfe] at h
    dsimp only at h
    cases hex : Execute op { p with pc := (p.pc + 2) % 65536 } 0 rnd with
    | none =>
      rw [hex] at h
      simp at h
    | some pr =>
      obtain ⟨q, i1⟩ := pr
      rw [hex] at h
      dsimp only at h
      have hq : q.sp ≤ 16 :=
        Execute_sp op { p with pc := (p.pc + 2) % 65536 } 0 rnd q i1 hsp hex
      cases tick <;>
          (injection h with h1; injection h1 with hA hB; cases hA) <;> exact hq

theorem Reset_sp (p : Processor) (h : Reset = some p) : p.sp = 0 := by
  unfold Reset at h
  dsimp only at h
  split at h
  · exact absurd h (by simp)
  · injection h with h1
    cases h1
    exact (writeLoop_frame fontSet 0x50 0 zeroProcessor).1

theorem Load_sp (b : List Nat) (p p2 : Processor) (h : Load b p = some p2) :
    p2.sp = p.sp := by
  unfold Load at h
  dsimp only at h
  split at h
  · exact absurd h (by simp)
  · injection h with h1
    cases h1
    exact (writeLoop_frame b 0x200 0 p).1

/-- C8: every state reachable from Reset via Load and Step has stack
depth at most 16; executing a call (2nnn) with the stack already at
depth 16 is fatal (Execute returns none, the modelled panic, rather than
overwriting or dropping an entry), and executing a return (00EE) with an
empty stack is fatal. -/
theorem callStack_spec :
    (∀ p, Reach p → p.sp ≤ 16) ∧
    (∀ op p info rnd, (op &&& 0xF000) >>> 12 = 0x2 → 16 ≤ p.sp →
      Execute op p info rnd = none) ∧
    (∀ p info rnd, p.sp = 0 → Execute 0x00EE p info rnd = none) := by
  refine ⟨?_, ?_, ?_⟩
  · intro p hp
    induction hp with
    | reset p hr => rw [Reset_sp p hr]; omega
    | load p b p2 _ hl ih => rw [Load_sp b p p2 hl]; exact ih
    | step p tick rnd p2 info _ hs ih => exact Step_sp tick rnd p p2 info ih hs
  · intro op p info rnd hkind hsp
    unfold Execute
    rw [hkind]
    dsimp only
    unfold callSubroutine
    rw [if_pos hsp]
    rfl
  · intro p info rnd h0
    have hred : Execute 0x00EE p info rnd =
        (returnFromSubroutine p).map (fun q => (q, info)) := rfl
    rw [hred]
    unfold returnFromSubroutine
    rw [if_pos h0]
    rfl

/-- Witness for callStack_spec: the Reset state satisfies the bound, a
call at depth 16 faults, and a return at depth 0 faults. -/
theorem callStack_spec_witness :
    resetState.sp ≤ 16 ∧
    Execute 0x2ABC pSp16 0 0 = none ∧
    Execute 0x00EE zeroProcessor 0 0 = none :=
  ⟨callStack_spec.1 resetState (Reach.reset resetState rfl),
   callStack_spec.2.1 0x2ABC pSp16 0 0 (by decide) (by decide),
   callStack_spec.2.2 zeroProcessor 0 0 rfl⟩

end Chip8
